import Mathlib

/-! Thunder `Core::WorkerPool`: a shallow embedding.

The embedding follows `Source/core/WorkerPool.h`.  Threads are modelled by
explicit state passing: every member function is a function on the state it
touches, and the interleaving of executor threads is a step relation.

`Core::QueueType`, `Core::TimerType` and `Core::Event` are declared in headers
outside this development; their models follow the written specification and
are marked as such.
-/

namespace WPEFramework
namespace Core

/-! ## Data model -/

/-- Result codes returned by the pool (`Core::ERROR_NONE`, ...). -/
inductive ErrorCode where
  | ERROR_NONE
  | ERROR_UNAVAILABLE
  | ERROR_UNKNOWN_KEY
  | ERROR_TIMEDOUT
  deriving DecidableEq, Repr

/-- The class `WorkerPool::Job`: a wrapper around the proxy `_job`.  The proxy is
represented by the address of the `IDispatch` it points to (`0` is the empty
proxy); `operator==` compares the proxies. -/
structure Job where
  job : Nat
  deriving DecidableEq, Repr

/-- The function `Job::Id`: the address held by the proxy, as a `uint64_t`. -/
def Job.Id (j : Job) : Nat := j.job

/-- Modelled from the spec: `Core::Event`, the `done` latch of a
`WorkerStatus`.  It is either signaled or not, and waiting does not consume
the signal. -/
structure Event where
  signaled : Bool
  deriving DecidableEq, Repr

/-- Modelled from the spec: `Event::ResetEvent` clears the latch. -/
def Event.ResetEvent (_e : Event) : Event := { signaled := false }

/-- Modelled from the spec: `Event::SetEvent` signals the latch. -/
def Event.SetEvent (_e : Event) : Event := { signaled := true }

/-- Modelled from the spec: `Event::Lock(waitTime)`, a wait on the latch of at
most `waitTime` milliseconds.  `setAfter` is the environment: the number of
milliseconds after which another thread signals the latch (`none` when no
thread does).  The wait yields `ERROR_NONE` when the latch is signaled in
time and `ERROR_TIMEDOUT` otherwise; the latch itself is left as it is. -/
def Event.Lock (e : Event) (setAfter : Option Nat) (waitTime : Nat) : Event × ErrorCode :=
  if e.signaled then (e, ErrorCode.ERROR_NONE)
  else
    match setAfter with
    | some t => if t ≤ waitTime then (e, ErrorCode.ERROR_NONE) else (e, ErrorCode.ERROR_TIMEDOUT)
    | none => (e, ErrorCode.ERROR_TIMEDOUT)

/-- The class `WorkerPool::WorkerStatus` (the critical section `_adminLock` carries no
data and is left out). -/
structure WorkerStatus where
  jobRunning : Event
  jobID : Nat
  deriving DecidableEq, Repr

/-- The constructor `WorkerStatus()`: `_jobRunning(true, true)`, `_jobID()`. -/
def WorkerStatus.init : WorkerStatus := { jobRunning := { signaled := true }, jobID := 0 }

/-- The function `WorkerStatus::JobStarted`. -/
def WorkerStatus.JobStarted (w : WorkerStatus) (jobID : Nat) : WorkerStatus :=
  let w1 := { w with jobRunning := w.jobRunning.ResetEvent }
  { w1 with jobID := jobID }

/-- The function `WorkerStatus::JobFinished`. -/
def WorkerStatus.JobFinished (w : WorkerStatus) : WorkerStatus :=
  let w1 := { w with jobID := 0 }
  { w1 with jobRunning := w1.jobRunning.SetEvent }

/-- The function `WorkerStatus::WaitForJobDone`.  `setAfter` is the environment of the wait
on `_jobRunning` (see `Event.Lock`). -/
def WorkerStatus.WaitForJobDone (w : WorkerStatus) (setAfter : Option Nat)
    (jobID waitTimeMs : Nat) : WorkerStatus × ErrorCode :=
  if w.jobID = jobID then
    let r := w.jobRunning.Lock setAfter waitTimeMs
    ({ w with jobRunning := r.1 }, r.2)
  else
    (w, ErrorCode.ERROR_UNKNOWN_KEY)

/-- Modelled from the spec: the handle queue `Core::QueueType<Job>`, a FIFO of
jobs with an `enabled` flag. -/
structure HandleQueue where
  items : List Job
  enabled : Bool
  deriving DecidableEq, Repr

/-- Modelled from the spec: `insert` appends the job; the queue is unbounded,
so the insertion never waits, and it does not succeed on a disabled queue. -/
def HandleQueue.Insert (q : HandleQueue) (job : Job) : HandleQueue × Bool :=
  if q.enabled then ({ q with items := q.items ++ [job] }, true) else (q, false)

/-- Modelled from the spec: `extract` pops the front.  `none` stands for the
absence of a result at this moment: the queue is disabled, or it is empty and
the caller keeps waiting. -/
def HandleQueue.Extract (q : HandleQueue) : Option (HandleQueue × Job) :=
  if q.enabled then
    match q.items with
    | [] => none
    | j :: rest => some ({ q with items := rest }, j)
  else none

/-- Modelled from the spec: `remove` takes out the first job equal to `job`
and tells whether it did. -/
def HandleQueue.Remove (q : HandleQueue) (job : Job) : HandleQueue × Bool :=
  if job ∈ q.items then ({ q with items := q.items.erase job }, true) else (q, false)

/-- Modelled from the spec: `enable`. -/
def HandleQueue.Enable (q : HandleQueue) : HandleQueue := { q with enabled := true }

/-- Modelled from the spec: the state of `Core::TimerType<Job>`, the pending
(absolute time, job) pairs in firing order. -/
structure Timer where
  entries : List (Nat × Job)
  deriving DecidableEq, Repr

/-- Insertion of a pair behind every entry that fires no later. -/
def Timer.insertOrdered (time : Nat) (job : Job) : List (Nat × Job) → List (Nat × Job)
  | [] => [(time, job)]
  | e :: rest =>
    if e.1 ≤ time then e :: Timer.insertOrdered time job rest
    else (time, job) :: e :: rest

/-- Modelled from the spec: `schedule` inserts the pair, keeping the entries
in non-decreasing time order and equal times in insertion order. -/
def Timer.Schedule (t : Timer) (time : Nat) (job : Job) : Timer :=
  { entries := Timer.insertOrdered time job t.entries }

/-- Removal of the first pair whose job equals `job`. -/
def Timer.eraseFirst (job : Job) : List (Nat × Job) → List (Nat × Job)
  | [] => []
  | e :: rest => if e.2 = job then rest else e :: Timer.eraseFirst job rest

/-- Whether some pending pair holds `job`. -/
def Timer.holds (t : Timer) (job : Job) : Bool := t.entries.any (fun e => e.2 = job)

/-- Modelled from the spec: `revoke` removes the first entry whose job equals
`job` and tells whether it did. -/
def Timer.Revoke (t : Timer) (job : Job) : Timer × Bool :=
  if t.holds job then ({ entries := Timer.eraseFirst job t.entries }, true) else (t, false)

/-- The struct `WorkerPool::Metadata`; `Slot` points to the `uint32_t` counters. -/
structure Metadata where
  Pending : Nat
  Occupation : Nat
  Slots : Nat
  Slot : Nat → Nat

/-- The data members of `WorkerPool`; `_workerStatuses` points to the array of
`WorkerStatus`. -/
structure WorkerPool where
  handleQueue : HandleQueue
  occupation : Nat
  timer : Timer
  metadata : Metadata
  workerStatuses : Nat → WorkerStatus

/-! ## Submit, Schedule, Revoke -/

/-- The function `WorkerPool::Submit`. -/
def WorkerPool.Submit (p : WorkerPool) (job : Job) : WorkerPool :=
  { p with handleQueue := (p.handleQueue.Insert job).1 }

/-- The function `WorkerPool::Schedule`. -/
def WorkerPool.Schedule (p : WorkerPool) (time : Nat) (job : Job) : WorkerPool :=
  { p with timer := p.timer.Schedule time job }

/-- The first statement of `WorkerPool::Revoke`: the timer is asked first and,
`||` being lazy, the queue only when the timer did not hold the job. -/
def WorkerPool.revokeScheduled (p : WorkerPool) (compare : Job) : WorkerPool × ErrorCode :=
  let t := p.timer.Revoke compare
  if t.2 = true then
    ({ p with timer := t.1 }, ErrorCode.ERROR_NONE)
  else
    let q := p.handleQueue.Remove compare
    ({ p with timer := t.1, handleQueue := q.1 },
      if q.2 then ErrorCode.ERROR_NONE else ErrorCode.ERROR_UNAVAILABLE)

/-- The slots visited by the loop of `WorkerPool::Revoke`:
`for (int i = 1; i < _metadata.Slots; ++i)`. -/
def WorkerPool.revokeSlots (p : WorkerPool) : List Nat := List.range' 1 (p.metadata.Slots - 1)

/-- One turn of the loop of `WorkerPool::Revoke` on slot `i`. -/
def WorkerPool.revokeVisit (env : Nat → Option Nat) (compare : Job) (waitTime : Nat)
    (acc : WorkerPool × ErrorCode) (i : Nat) : WorkerPool × ErrorCode :=
  let r := (acc.1.workerStatuses i).WaitForJobDone (env i) compare.Id waitTime
  let p1 := { acc.1 with workerStatuses := Function.update acc.1.workerStatuses i r.1 }
  if r.2 = ErrorCode.ERROR_NONE then (p1, ErrorCode.ERROR_NONE) else (p1, acc.2)

/-- The function `WorkerPool::Revoke`.  `env i` is the environment of the wait
on slot `i`: the milliseconds after which the executor of that slot finishes
its job. -/
def WorkerPool.Revoke (p : WorkerPool) (env : Nat → Option Nat) (job : Job)
    (waitTime : Nat) : WorkerPool × ErrorCode :=
  let compare := job
  let start := p.revokeScheduled compare
  (p.revokeSlots).foldl (WorkerPool.revokeVisit env compare waitTime) start

/-! ## The executor loop -/

/-- The function `WorkerPoolType::Running`, the override used by the pool:
`return (true)`. -/
def WorkerPoolType.Running : Bool := true

/-- The head of the loop of `WorkerPool::Process(index)` up to the call of
`newRequest.Dispatch()`: the loop condition (`Running()` and `Extract`), then
`JobStarted`, `_metadata.Slot[index]++` on a `uint32_t` and `_occupation++` on
a `uint8_t`.  `none`: the loop does not get a job now. -/
def WorkerPool.processBegin (p : WorkerPool) (index : Nat) : Option (WorkerPool × Job) :=
  if WorkerPoolType.Running = true then
    match p.handleQueue.Extract with
    | none => none
    | some (q, newRequest) =>
      let statuses := Function.update p.workerStatuses index
        ((p.workerStatuses index).JobStarted newRequest.Id)
      let counters := Function.update p.metadata.Slot index ((p.metadata.Slot index + 1) % 2 ^ 32)
      some ({ p with
                handleQueue := q
                workerStatuses := statuses
                metadata := { p.metadata with Slot := counters }
                occupation := (p.occupation + 1) % 2 ^ 8 }, newRequest)
  else none

/-- The rest of the loop body of `WorkerPool::Process(index)`, after
`newRequest.Dispatch()` returned: `_occupation--` and `JobFinished`. -/
def WorkerPool.processEnd (p : WorkerPool) (index : Nat) : WorkerPool :=
  { p with
      occupation := (p.occupation + 2 ^ 8 - 1) % 2 ^ 8
      workerStatuses :=
        Function.update p.workerStatuses index (p.workerStatuses index).JobFinished }

/-- The threads that run the executor loop: the thread that called
`WorkerPool::Join`, and the `Minion` bound to `index` by `Minion::Set`. -/
inductive Executor where
  | joined
  | minion (index : Nat)
  deriving DecidableEq, Repr

/-- The argument with which an executor thread calls `Process`:
`Join` calls `Process(0)`, `Minion::Worker` calls `Process(_index)`. -/
def Executor.slot : Executor → Nat
  | Executor.joined => 0
  | Executor.minion index => index

/-- The indexes given to `Minion::Set` by the loop of `WorkerPool::Run`:
`for (uint8_t index = 1; index < _metadata.Slots; index++)`. -/
def WorkerPool.runIndexes (p : WorkerPool) : List Nat := List.range' 1 (p.metadata.Slots - 1)

/-- The function `WorkerPool::Run`: enables the queue; the minions it starts
are those of `runIndexes`. -/
def WorkerPool.Run (p : WorkerPool) : WorkerPool :=
  { p with handleQueue := p.handleQueue.Enable }

/-- Whether a thread runs the executor loop of this pool. -/
def WorkerPool.serves (p : WorkerPool) : Executor → Bool
  | Executor.joined => true
  | Executor.minion index => decide (index ∈ p.runIndexes)

/-- Modelled from the spec: the constructor `WorkerPool(threadCount, counters)`
(defined outside the header): `threadCount` slots, an empty queue that accepts
insertions, an empty timer, no occupation, counters at zero and every
`WorkerStatus` freshly constructed. -/
def WorkerPool.init (threadCount : Nat) : WorkerPool :=
  { handleQueue := { items := [], enabled := true }
    occupation := 0
    timer := { entries := [] }
    metadata := { Pending := 0, Occupation := 0, Slots := threadCount, Slot := fun _ => 0 }
    workerStatuses := fun _ => WorkerStatus.init }

/-- A pool together with its executor threads: `current x` is the local
`newRequest` of thread `x` while it is inside `newRequest.Dispatch()`, and
`dispatched` logs the calls of `Job::Dispatch` in the order they were made. -/
structure PoolRun where
  pool : WorkerPool
  current : Executor → Option Job
  dispatched : List Job

/-- The moves of the pool and its threads. -/
inductive PoolAction where
  | submit (job : Job)
  | start (x : Executor)
  | finish (x : Executor)
  deriving DecidableEq, Repr

/-- One move.  `submit` is `WorkerPool::Submit`; `start x` is thread `x`
getting a job in `Process` and calling its `Dispatch`; `finish x` is that call
returning.  `none`: the move is not possible in this state. -/
def PoolRun.step (r : PoolRun) : PoolAction → Option PoolRun
  | PoolAction.submit job => some { r with pool := r.pool.Submit job }
  | PoolAction.start x =>
    if r.pool.serves x = true ∧ r.current x = none then
      match r.pool.processBegin x.slot with
      | none => none
      | some (p, newRequest) =>
        some { pool := p
               current := Function.update r.current x (some newRequest)
               dispatched := r.dispatched ++ [newRequest] }
    else none
  | PoolAction.finish x =>
    match r.current x with
    | none => none
    | some _ =>
      some { r with
               pool := r.pool.processEnd x.slot
               current := Function.update r.current x none }

/-- A sequence of moves. -/
def PoolRun.run (r : PoolRun) : List PoolAction → Option PoolRun
  | [] => some r
  | a :: rest =>
    match r.step a with
    | none => none
    | some r1 => PoolRun.run r1 rest

/-- The pool after construction with `threadCount` slots and `Run`, no thread
holding a job. -/
def PoolRun.init (threadCount : Nat) : PoolRun :=
  { pool := (WorkerPool.init threadCount).Run
    current := fun _ => none
    dispatched := [] }

/-- The jobs submitted by a sequence of moves, in order. -/
def PoolAction.submitted : List PoolAction → List Job
  | [] => []
  | PoolAction.submit job :: rest => job :: PoolAction.submitted rest
  | _ :: rest => PoolAction.submitted rest

/-- The sum of the per-slot counters `_metadata.Slot[0 .. Slots-1]`. -/
def WorkerPool.counterSum (p : WorkerPool) : Nat :=
  ((List.range p.metadata.Slots).map p.metadata.Slot).sum

/-! ## WorkerStatus call sequences -/

/-- The calls an executor makes on its `WorkerStatus`. -/
inductive StatusCall where
  | JobStarted (jobID : Nat)
  | JobFinished
  deriving DecidableEq, Repr

/-- One call on a `WorkerStatus`. -/
def WorkerStatus.call (w : WorkerStatus) : StatusCall → WorkerStatus
  | StatusCall.JobStarted jobID => w.JobStarted jobID
  | StatusCall.JobFinished => w.JobFinished

/-- A sequence of calls on a freshly constructed `WorkerStatus`. -/
def WorkerStatus.after (calls : List StatusCall) : WorkerStatus :=
  calls.foldl WorkerStatus.call WorkerStatus.init

/-- The slot is running the job with identity `jobID`: `_jobID` is not the
value `0` that `JobFinished` stores, and equals `jobID`. -/
def WorkerStatus.runs (w : WorkerStatus) (jobID : Nat) : Prop := w.jobID ≠ 0 ∧ w.jobID = jobID

/-! ## DispatcherType -/

/-- The class `WorkerPool::DispatcherType<IMPLEMENTATION>`: the atomic flag `_submitted`
(the reference `_implementation` is the body run by `Dispatch`). -/
structure DispatcherType where
  submitted : Bool
  deriving DecidableEq, Repr

/-- The constructor `DispatcherType(parent)`: `_submitted(false)`. -/
def DispatcherType.init : DispatcherType := { submitted := false }

/-- The operation `std::atomic<bool>::compare_exchange_strong(expected,
desired)`: the new value of the flag and whether the exchange took place. -/
def compare_exchange_strong (flag expected desired : Bool) : Bool × Bool :=
  if flag = expected then (desired, true) else (flag, false)

/-- The function `DispatcherType::Submit`; `self` is the proxy of this dispatcher and
`queue` the handle queue of the pool (`WorkerPool::Submit` inserts there). -/
def DispatcherType.Submit (d : DispatcherType) (self : Job) (queue : HandleQueue) :
    DispatcherType × HandleQueue :=
  let r := compare_exchange_strong d.submitted false true
  if r.2 = true then ({ submitted := r.1 }, (queue.Insert self).1)
  else ({ submitted := r.1 }, queue)

/-- What `_implementation.Dispatch()` does, as far as the dispatcher is
concerned: it may call `Submit` on its own wrapper, or do other work. -/
inductive ImplOp where
  | submit
  | work
  deriving DecidableEq, Repr

/-- The dispatcher, the queue of the pool, and the number of times
`_implementation.Dispatch()` was entered. -/
structure DispatchState where
  dispatcher : DispatcherType
  queue : HandleQueue
  invoked : Nat
  deriving DecidableEq, Repr

/-- The body of `_implementation.Dispatch()` run on the state. -/
def ImplOp.runBody (self : Job) : List ImplOp → DispatchState → DispatchState
  | [], s => s
  | ImplOp.submit :: rest, s =>
    let r := s.dispatcher.Submit self s.queue
    ImplOp.runBody self rest { s with dispatcher := r.1, queue := r.2 }
  | ImplOp.work :: rest, s => ImplOp.runBody self rest s

/-- The function `DispatcherType::Dispatch`, with `body` the behaviour of
`_implementation.Dispatch()`. -/
def DispatcherType.Dispatch (self : Job) (body : List ImplOp) (s : DispatchState) : DispatchState :=
  let r := compare_exchange_strong s.dispatcher.submitted true false
  if r.2 = true then
    ImplOp.runBody self body { s with dispatcher := { submitted := r.1 }, invoked := s.invoked + 1 }
  else
    { s with dispatcher := { submitted := r.1 } }

/-- Where an executor thread stands with respect to the dispatcher: outside
the loop body, holding an extracted job before its `Dispatch` reached the
compare-exchange, or inside the wrapped `_implementation.Dispatch()`. -/
inductive ExecPhase where
  | idle
  | holding (job : Job)
  | inside
  deriving DecidableEq, Repr

/-- One dispatcher with proxy `self`, the queue of the pool, and the executor
threads of the pool. -/
structure DispatcherRun where
  dispatcher : DispatcherType
  queue : HandleQueue
  exec : List ExecPhase
  deriving DecidableEq, Repr

/-- The moves of the dispatcher and the executors. -/
inductive DispatcherAction where
  | submit
  | other (job : Job)
  | extract (e : Nat)
  | enter (e : Nat)
  | leave (e : Nat)
  deriving DecidableEq, Repr

/-- One move.  `submit` is `DispatcherType::Submit`; `other job` is
`WorkerPool::Submit` of a job that is not this dispatcher; `extract e` is
executor `e` getting an entry from the queue; `enter e` is the compare-exchange of
`DispatcherType::Dispatch` made by `e` on the entry it holds, after which `e`
is inside `_implementation.Dispatch()` or has dropped the entry; `leave e` is
`_implementation.Dispatch()` returning.  An entry of another job is
dispatched without touching this dispatcher. -/
def DispatcherRun.step (self : Job) (s : DispatcherRun) : DispatcherAction → Option DispatcherRun
  | DispatcherAction.submit =>
    let r := s.dispatcher.Submit self s.queue
    some { s with dispatcher := r.1, queue := r.2 }
  | DispatcherAction.other job =>
    if job = self then none else some { s with queue := (s.queue.Insert job).1 }
  | DispatcherAction.extract e =>
    match s.exec.get? e, s.queue.Extract with
    | some ExecPhase.idle, some (q, job) =>
      some { s with queue := q, exec := s.exec.set e (ExecPhase.holding job) }
    | _, _ => none
  | DispatcherAction.enter e =>
    match s.exec.get? e with
    | some (ExecPhase.holding job) =>
      if job = self then
        let r := compare_exchange_strong s.dispatcher.submitted true false
        some { s with
                 dispatcher := { submitted := r.1 }
                 exec := s.exec.set e (if r.2 = true then ExecPhase.inside else ExecPhase.idle) }
      else some { s with exec := s.exec.set e ExecPhase.idle }
    | _ => none
  | DispatcherAction.leave e =>
    match s.exec.get? e with
    | some ExecPhase.inside => some { s with exec := s.exec.set e ExecPhase.idle }
    | _ => none

/-- A sequence of moves. -/
def DispatcherRun.run (self : Job) (s : DispatcherRun) :
    List DispatcherAction → Option DispatcherRun
  | [] => some s
  | a :: rest =>
    match s.step self a with
    | none => none
    | some s1 => DispatcherRun.run self s1 rest

/-- A freshly constructed dispatcher in a pool with `n` idle executors and an
empty queue that accepts insertions. -/
def DispatcherRun.init (n : Nat) : DispatcherRun :=
  { dispatcher := DispatcherType.init
    queue := { items := [], enabled := true }
    exec := List.replicate n ExecPhase.idle }

/-- The pending entries of the dispatcher: those in the queue, and those held
by an executor that has not yet made the compare-exchange. -/
def DispatcherRun.pending (self : Job) (s : DispatcherRun) : Nat :=
  s.queue.items.count self + s.exec.count (ExecPhase.holding self)

/-- The number of executors inside `_implementation.Dispatch()`. -/
def DispatcherRun.insideCount (s : DispatcherRun) : Nat := s.exec.count ExecPhase.inside

/-- A sequence of moves in which `Submit` is only called while no executor is
inside `_implementation.Dispatch()`. -/
def DispatcherRun.runQuiet (self : Job) (s : DispatcherRun) :
    List DispatcherAction → Option DispatcherRun
  | [] => some s
  | a :: rest =>
    if a = DispatcherAction.submit ∧ s.insideCount ≠ 0 then none
    else
      match s.step self a with
      | none => none
      | some s1 => DispatcherRun.runQuiet self s1 rest

/-! ## Invariants -/

/-- The relation kept by every move between the pool and the jobs submitted so
far: the queue accepts insertions, the jobs dispatched followed by the jobs
queued are the jobs submitted, and the counters add up to the number of
dispatches. -/
structure CountInv (r : PoolRun) (sub : List Job) : Prop where
  slots : 0 < r.pool.metadata.Slots
  enabled : r.pool.handleQueue.enabled = true
  order : r.dispatched ++ r.pool.handleQueue.items = sub
  total : r.pool.counterSum = r.dispatched.length

/-- The relation kept by every move between the flag of the dispatcher and its
pending entries. -/
structure PendingInv (self : Job) (s : DispatcherRun) : Prop where
  enabled : s.queue.enabled = true
  pend : s.pending self = if s.dispatcher.submitted = true then 1 else 0

/-! ## Concrete states -/

/-- A job used in the examples. -/
def jobA : Job := { job := 4096 }

/-- A pool of two slots in which `jobA` was both submitted and scheduled. -/
def poolSubmittedAndScheduled : WorkerPool :=
  ((WorkerPool.init 2).Submit jobA).Schedule 5 jobA

/-- The pool of two slots after `Submit(jobA)` and after the thread that called
`Join` took `jobA` from the queue and entered its `Dispatch`. -/
def runJoinedDispatchesA : PoolRun :=
  ((PoolRun.init 2).run [PoolAction.submit jobA, PoolAction.start Executor.joined]).getD
    (PoolRun.init 2)

/-- The pool of two slots after `Submit(jobA)`. -/
def runSubmittedA : PoolRun :=
  ((PoolRun.init 2).run [PoolAction.submit jobA]).getD (PoolRun.init 2)

/-- The state `runJoinedDispatchesA` after the dispatch of `jobA` returned. -/
def runJoinedFinishedA : PoolRun :=
  (runJoinedDispatchesA.step (PoolAction.finish Executor.joined)).getD (PoolRun.init 2)

/-- A second job used in the examples. -/
def jobB : Job := { job := 8192 }

/-- Two submissions to a pool of three slots, one job taken by the thread
that called `Join` and one by the minion of slot 2. -/
def twoJobsTrace : List PoolAction :=
  [PoolAction.submit jobA, PoolAction.submit jobB, PoolAction.start Executor.joined,
   PoolAction.start (Executor.minion 2), PoolAction.finish Executor.joined,
   PoolAction.finish (Executor.minion 2)]

/-- The state reached by `twoJobsTrace`. -/
def runTwoJobs : PoolRun := ((PoolRun.init 3).run twoJobsTrace).getD (PoolRun.init 3)

/-- One submission taken and dispatched by executor 0, a second submission
made while executor 0 is inside, taken by executor 1. -/
def resubmitTrace : List DispatcherAction :=
  [DispatcherAction.submit, DispatcherAction.extract 0, DispatcherAction.enter 0,
   DispatcherAction.submit, DispatcherAction.extract 1, DispatcherAction.enter 1]

/-- Three calls of `Submit` in a row, then executor 0 takes an entry. -/
def coalescedTrace : List DispatcherAction :=
  [DispatcherAction.submit, DispatcherAction.submit, DispatcherAction.submit,
   DispatcherAction.extract 0]

/-- The state reached by `coalescedTrace` with two executors. -/
def runCoalesced : DispatcherRun :=
  { dispatcher := { submitted := true }
    queue := { items := [], enabled := true }
    exec := [ExecPhase.holding jobA, ExecPhase.idle] }

/-- The state reached by `resubmitTrace` with two executors. -/
def runResubmitted : DispatcherRun :=
  { dispatcher := { submitted := false }
    queue := { items := [], enabled := true }
    exec := [ExecPhase.inside, ExecPhase.inside] }

/-- A submission taken by executor 0 and dispatched to the end, then a second
submission taken by executor 1. -/
def quietTrace : List DispatcherAction :=
  [DispatcherAction.submit, DispatcherAction.extract 0, DispatcherAction.enter 0,
   DispatcherAction.leave 0, DispatcherAction.submit, DispatcherAction.extract 1,
   DispatcherAction.enter 1]

/-- The state reached by `quietTrace` with two executors. -/
def runQuietState : DispatcherRun :=
  { dispatcher := { submitted := false }
    queue := { items := [], enabled := true }
    exec := [ExecPhase.idle, ExecPhase.inside] }

/-- A dispatcher whose entry is being dispatched: `_submitted` is true and the
queue of the pool is empty. -/
def dispatchEntry : DispatchState :=
  { dispatcher := { submitted := true }
    queue := { items := [], enabled := true }
    invoked := 0 }

/-! ## Thread identities -/

/-- The class `WorkerPool::Minion`: whether `_parent` is set, the slot `_index`
it passes to `Process`, the identity its thread reports through
`Core::Thread::ThreadId`, and whether its thread was started. -/
structure Minion where
  parent : Bool
  index : Nat
  threadId : Nat
  started : Bool
  deriving DecidableEq, Repr

/-- The constructor `Minion()`: `_parent(nullptr)`, `_index(0)`, for a thread
of identity `threadId`. -/
def Minion.init (threadId : Nat) : Minion :=
  { parent := false, index := 0, threadId := threadId, started := false }

/-- The function `Minion::Set`. -/
def Minion.Set (m : Minion) (index : Nat) : Minion :=
  { m with parent := true, index := index }

/-- The call `minion.Run()` that starts the thread; its `Worker` then calls
`_parent->Process(_index)`. -/
def Minion.Run (m : Minion) : Minion := { m with started := true }

/-- The class `WorkerPoolType<THREAD_COUNT>`: the pool, the array `_minions`,
and the identity of the timer thread (`_timer.ThreadId()`). -/
structure WorkerPoolType where
  pool : WorkerPool
  minions : Nat → Minion
  timerThreadId : Nat

/-- The constructor `WorkerPoolType(stackSize)`: a pool of `THREAD_COUNT` slots
and default-constructed minions; `threadIds k` is the identity of the thread
of `_minions[k]`. -/
def WorkerPoolType.init (THREAD_COUNT : Nat) (timerThreadId : Nat) (threadIds : Nat → Nat) :
    WorkerPoolType :=
  { pool := WorkerPool.init THREAD_COUNT
    minions := fun k => Minion.init (threadIds k)
    timerThreadId := timerThreadId }

/-- The position in `_minions` used by `WorkerPoolType::Index(index)`:
`return (_minions[index-1])`. -/
def WorkerPoolType.indexPosition (index : Nat) : Nat := index - 1

/-- The function `WorkerPoolType::Index`. -/
def WorkerPoolType.Index (w : WorkerPoolType) (index : Nat) : Minion :=
  w.minions (WorkerPoolType.indexPosition index)

/-- One turn of the loop of `WorkerPool::Run`: `Index(index)` is bound to
`index` by `Set` and started. -/
def WorkerPoolType.runVisit (w : WorkerPoolType) (index : Nat) : WorkerPoolType :=
  let minion := w.Index index
  { w with minions :=
      Function.update w.minions (WorkerPoolType.indexPosition index) (minion.Set index).Run }

/-- The function `WorkerPool::Run` on a `WorkerPoolType`: the queue is enabled
and the loop `for (uint8_t index = 1; index < _metadata.Slots; index++)` binds
and starts the minions. -/
def WorkerPoolType.Run (w : WorkerPoolType) : WorkerPoolType :=
  (w.pool.runIndexes).foldl WorkerPoolType.runVisit { w with pool := w.pool.Run }

/-- The function `WorkerPool::Id`. -/
def WorkerPoolType.Id (w : WorkerPoolType) (index : Nat) : Nat :=
  if index = 0 then w.timerThreadId
  else if index = 1 then 0
  else if index < w.pool.metadata.Slots then (w.Index (index - 1)).threadId
  else 0

/-- A pool of three slots whose timer thread has identity 100 and whose minions
`_minions[0]`, `_minions[1]` have the thread identities 101 and 102, after
`Run`. -/
def poolThreeStarted : WorkerPoolType :=
  (WorkerPoolType.init 3 100 (fun k => 101 + k)).Run

end Core

namespace ProcessContainers

/-! ## The cgroup parsers of RunCContainer -/

/-- The exceptions `std::stoll` throws. -/
inductive Exception where
  | invalid_argument
  | out_of_range
  deriving DecidableEq, Repr

/-- The C function `isspace` in the C locale. -/
def isspace (c : Char) : Bool :=
  c = ' ' || c = '\t' || c = '\n' || c = Char.ofNat 11 || c = Char.ofNat 12 || c = '\r'

/-- The C function `isdigit`. -/
def isdigit (c : Char) : Bool := decide ('0' ≤ c ∧ c ≤ '9')

/-- The value of a run of decimal digits. -/
def digitsValue (digits : List Char) : Nat :=
  digits.foldl (fun acc c => 10 * acc + (c.toNat - 48)) 0

/-- The conversion shared by `strtol` and `strtoll` in base 10: leading white
space is skipped, then an optional sign is read, then the longest run of
digits.  `none`: there is no digit, no conversion is made. -/
def scanInteger (s : List Char) : Option Int :=
  let s1 := s.dropWhile isspace
  let negative := s1.head? = some '-'
  let s2 := if s1.head? = some '-' ∨ s1.head? = some '+' then s1.tail else s1
  let digits := s2.takeWhile isdigit
  if digits = [] then none
  else some (if negative then - (digitsValue digits : Int) else (digitsValue digits : Int))

/-- The function `std::stoll` (base 10) on a C string: `invalid_argument` when
no conversion can be made, `out_of_range` when the value does not fit a
`long long`. -/
def stoll (s : List Char) : Except Exception Int :=
  match scanInteger s with
  | none => Except.error Exception.invalid_argument
  | some v =>
    if v < -(2 : Int) ^ 63 ∨ (2 : Int) ^ 63 - 1 < v then Except.error Exception.out_of_range
    else Except.ok v

/-- The C function `atoi` as the C library defines it, `(int) strtol(s, NULL,
10)`: no conversion gives 0, the value is clamped to the range of `long` and
then reduced to a 32-bit `int`. -/
def atoi (s : List Char) : Int :=
  match scanInteger s with
  | none => 0
  | some v =>
    let clamped : Int := max (-(2 : Int) ^ 63) (min ((2 : Int) ^ 63 - 1) v)
    (clamped + 2 ^ 31) % 2 ^ 32 - 2 ^ 31

/-- The conversion of a signed integer to `uint64_t`. -/
def toUInt64 (v : Int) : Nat := (v % 2 ^ 64).toNat

/-- The characters of the delimiter string passed to `strtok_r`. -/
def isDelimiter (c : Char) : Bool := c = ' ' || c = '\n'

/-- The tokens cut by `strtok_r`, `cur` being the token under way (reversed). -/
def tokensFrom : List Char → List Char → List (List Char)
  | [], cur => if cur = [] then [] else [cur.reverse]
  | c :: rest, cur =>
    if isDelimiter c then
      if cur = [] then tokensFrom rest [] else cur.reverse :: tokensFrom rest []
    else tokensFrom rest (c :: cur)

/-- The successive results of `strtok_r(buffer, delimiters, &tmp)` and
`strtok_r(NULL, delimiters, &tmp)` until `nullptr`, on the buffer holding the
bytes read; the C string ends at the first NUL, and the buffer is taken to be
terminated after the bytes read. -/
def strtok_r (buffer : List Char) : List (List Char) :=
  tokensFrom (buffer.takeWhile (fun c => c ≠ Char.ofNat 0)) []

/-- The struct `MemoryInfo`, three `uint64_t`. -/
structure MemoryInfo where
  allocated : Nat
  resident : Nat
  shared : Nat
  deriving DecidableEq, Repr

/-- The struct `CPUInfo`: a `uint64_t` and a vector of `uint64_t`. -/
structure CPUInfo where
  total : Nat
  cores : List Nat
  deriving DecidableEq, Repr

/-- The constant `UINT64_MAX`. -/
def UINT64_MAX : Nat := 2 ^ 64 - 1

/-- The `while (token != nullptr)` loop of `RunCContainer::Memory` over the
tokens of `memory.stat`: a label, then the token after it converted with
`std::stoll`; an exception of `std::stoll` leaves the function. -/
def memoryLoop : List (List Char) → MemoryInfo → Except Exception MemoryInfo
  | [], result => Except.ok result
  | [_], result => Except.ok result
  | label :: token :: rest, result =>
    match stoll token with
    | Except.error e => Except.error e
    | Except.ok v =>
      let value := toUInt64 v
      if label = "rss".toList then memoryLoop rest { result with resident := value }
      else if label = "mapped_file".toList then memoryLoop rest { result with shared := value }
      else memoryLoop rest result

/-- The function `RunCContainer::Memory`, given the bytes read from
`memory.usage_in_bytes` and from `memory.stat` (at most 2048 each). -/
def RunCContainer.Memory (usage stat : List Char) : Except Exception MemoryInfo :=
  let result : MemoryInfo :=
    { allocated := UINT64_MAX, resident := UINT64_MAX, shared := UINT64_MAX }
  let buffer1 := usage.take 2048
  let afterUsage : Except Exception MemoryInfo :=
    if 0 < buffer1.length then
      match stoll (buffer1.takeWhile (fun c => c ≠ Char.ofNat 0)) with
      | Except.error e => Except.error e
      | Except.ok v => Except.ok { result with allocated := toUInt64 v }
    else Except.ok result
  match afterUsage with
  | Except.error e => Except.error e
  | Except.ok result1 =>
    let buffer2 := stat.take 2048
    if 0 < buffer2.length then memoryLoop (strtok_r buffer2) result1
    else Except.ok result1

/-- The `while (token != nullptr)` loop of `RunCContainer::Cpu` over the tokens
of `cpuacct.usage_percpu`: a token whose first character is a digit is
converted with `atoi` and pushed, any other token is passed over. -/
def cpuLoop : List (List Char) → List Nat → List Nat
  | [], cores => cores
  | token :: rest, cores =>
    if (token.head?.map isdigit).getD false then
      cpuLoop rest (cores ++ [toUInt64 (atoi token)])
    else cpuLoop rest cores

/-- The function `RunCContainer::Cpu`, given the bytes read from
`cpuacct.usage` and from `cpuacct.usage_percpu` (at most 2048 each). -/
def RunCContainer.Cpu (usage percpu : List Char) : CPUInfo :=
  let output : CPUInfo := { total := UINT64_MAX, cores := [] }
  let buffer1 := usage.take 2048
  let output1 : CPUInfo :=
    if 0 < buffer1.length then
      { output with total := toUInt64 (atoi (buffer1.takeWhile (fun c => c ≠ Char.ofNat 0))) }
    else output
  let buffer2 := percpu.take 2048
  if 0 < buffer2.length then { output1 with cores := cpuLoop (strtok_r buffer2) output1.cores }
  else output1

/-- The content of a `memory.usage_in_bytes` file. -/
def usageContent : List Char := "8192\n".toList

/-- A `memory.stat` content in which a stray character stands as a token of its
own between two lines. -/
def statWithStrayToken : List Char :=
  "cache 1024\n".toList ++ [Char.ofNat 1] ++ "\nrss 4096\nmapped_file 512\n".toList

/-- A `cpuacct.usage_percpu` content with the same stray token. -/
def percpuWithStrayToken : List Char :=
  "100 ".toList ++ [Char.ofNat 1] ++ " 200\n".toList

/-- A `memory.stat` content without stray tokens. -/
def statClean : List Char := "cache 1024\nrss 4096\nmapped_file 512\n".toList

end ProcessContainers

namespace Core

/-! ## Revoke: the result -/

theorem WaitForJobDone_fst (w : WorkerStatus) (setAfter : Option Nat) (jobID waitTimeMs : Nat) :
    (w.WaitForJobDone setAfter jobID waitTimeMs).1 = w := by
  unfold WorkerStatus.WaitForJobDone Event.Lock
  split
  · cases hs : w.jobRunning.signaled
    · cases setAfter with
      | none => simp
      | some t => by_cases ht : t ≤ waitTimeMs <;> simp [ht]
    · simp
  · rfl

theorem revokeVisit_fst (env : Nat → Option Nat) (compare : Job) (waitTime : Nat)
    (acc : WorkerPool × ErrorCode) (i : Nat) :
    (WorkerPool.revokeVisit env compare waitTime acc i).1 = acc.1 := by
  unfold WorkerPool.revokeVisit
  simp only [WaitForJobDone_fst, Function.update_eq_self]
  split <;> rfl

theorem revokeVisit_snd (env : Nat → Option Nat) (compare : Job) (waitTime : Nat)
    (acc : WorkerPool × ErrorCode) (i : Nat) :
    (WorkerPool.revokeVisit env compare waitTime acc i).2 =
      if ((acc.1.workerStatuses i).WaitForJobDone (env i) compare.Id waitTime).2
          = ErrorCode.ERROR_NONE
      then ErrorCode.ERROR_NONE else acc.2 := by
  unfold WorkerPool.revokeVisit
  simp only []
  split <;> rfl

theorem revokeLoop_fst (env : Nat → Option Nat) (compare : Job) (waitTime : Nat)
    (l : List Nat) (acc : WorkerPool × ErrorCode) :
    (l.foldl (WorkerPool.revokeVisit env compare waitTime) acc).1 = acc.1 := by
  induction l generalizing acc with
  | nil => rfl
  | cons i rest ih => rw [List.foldl_cons, ih, revokeVisit_fst]

theorem revokeLoop_snd (env : Nat → Option Nat) (compare : Job) (waitTime : Nat)
    (l : List Nat) (acc : WorkerPool × ErrorCode) :
    (l.foldl (WorkerPool.revokeVisit env compare waitTime) acc).2 =
      if ∃ i ∈ l, ((acc.1.workerStatuses i).WaitForJobDone (env i) compare.Id waitTime).2
          = ErrorCode.ERROR_NONE
      then ErrorCode.ERROR_NONE else acc.2 := by
  induction l generalizing acc with
  | nil => simp
  | cons i rest ih =>
    rw [List.foldl_cons, ih, revokeVisit_fst, revokeVisit_snd]
    by_cases h1 : ((acc.1.workerStatuses i).WaitForJobDone (env i) compare.Id waitTime).2
        = ErrorCode.ERROR_NONE
    · simp [h1]
    · simp [h1]

theorem revokeScheduled_statuses (p : WorkerPool) (compare : Job) :
    (p.revokeScheduled compare).1.workerStatuses = p.workerStatuses := by
  unfold WorkerPool.revokeScheduled
  simp only []
  split <;> rfl

theorem revokeScheduled_snd (p : WorkerPool) (compare : Job) :
    (p.revokeScheduled compare).2 =
      if (p.timer.Revoke compare).2 = true ∨ (p.handleQueue.Remove compare).2 = true
      then ErrorCode.ERROR_NONE else ErrorCode.ERROR_UNAVAILABLE := by
  unfold WorkerPool.revokeScheduled
  simp only []
  by_cases h1 : (p.timer.Revoke compare).2 = true
  · simp [h1]
  · by_cases h2 : (p.handleQueue.Remove compare).2 = true
    · simp [h1, h2]
    · simp [h1, h2]

theorem Revoke_snd (p : WorkerPool) (env : Nat → Option Nat) (job : Job) (waitTime : Nat) :
    (p.Revoke env job waitTime).2 =
      if (p.timer.Revoke job).2 = true ∨ (p.handleQueue.Remove job).2 = true ∨
          ∃ i ∈ p.revokeSlots,
            ((p.workerStatuses i).WaitForJobDone (env i) job.Id waitTime).2 = ErrorCode.ERROR_NONE
      then ErrorCode.ERROR_NONE else ErrorCode.ERROR_UNAVAILABLE := by
  unfold WorkerPool.Revoke
  simp only []
  rw [revokeLoop_snd, revokeScheduled_statuses, revokeScheduled_snd]
  by_cases h3 : ∃ i ∈ p.revokeSlots,
      ((p.workerStatuses i).WaitForJobDone (env i) job.Id waitTime).2 = ErrorCode.ERROR_NONE
  · simp only [h3, if_true, or_true]
  · simp only [h3, if_false, or_false]

theorem mem_revokeSlots (p : WorkerPool) (i : Nat) :
    i ∈ p.revokeSlots ↔ 1 ≤ i ∧ i < p.metadata.Slots := by
  unfold WorkerPool.revokeSlots
  rw [List.mem_range'_1]
  omega

/-- C1: `WorkerPool::Revoke` returns `ERROR_NONE` exactly when the job was
found, that is when `_timer.Revoke` returned true, or `_handleQueue.Remove`
returned true, or `WaitForJobDone` returned `ERROR_NONE` on one of the slots
`1 .. Slots-1` visited by the loop; in every other case it returns
`ERROR_UNAVAILABLE`. -/
theorem Revoke_ok_iff_found (p : WorkerPool) (env : Nat → Option Nat) (job : Job)
    (waitTime : Nat) :
    ((p.Revoke env job waitTime).2 = ErrorCode.ERROR_NONE ↔
      ((p.timer.Revoke job).2 = true ∨ (p.handleQueue.Remove job).2 = true ∨
        ∃ i, (1 ≤ i ∧ i < p.metadata.Slots) ∧
          ((p.workerStatuses i).WaitForJobDone (env i) job.Id waitTime).2
            = ErrorCode.ERROR_NONE)) ∧
    ((p.Revoke env job waitTime).2 ≠ ErrorCode.ERROR_NONE →
      (p.Revoke env job waitTime).2 = ErrorCode.ERROR_UNAVAILABLE) := by
  rw [Revoke_snd]
  have hslots : (∃ i ∈ p.revokeSlots,
      ((p.workerStatuses i).WaitForJobDone (env i) job.Id waitTime).2 = ErrorCode.ERROR_NONE) ↔
      ∃ i, (1 ≤ i ∧ i < p.metadata.Slots) ∧
        ((p.workerStatuses i).WaitForJobDone (env i) job.Id waitTime).2
          = ErrorCode.ERROR_NONE := by
    constructor
    · rintro ⟨i, hi, hw⟩
      exact ⟨i, (mem_revokeSlots p i).mp hi, hw⟩
    · rintro ⟨i, hi, hw⟩
      exact ⟨i, (mem_revokeSlots p i).mpr hi, hw⟩
  rw [← hslots]
  constructor
  · constructor
    · intro h
      by_contra hn
      rw [if_neg hn] at h
      exact absurd h (by decide)
    · intro h
      rw [if_pos h]
  · intro h
    split
    · rename_i hf
      rw [if_pos hf] at h
      exact absurd rfl h
    · rfl

/-! ## Revoke: what is left in the timer and the queue -/

theorem Revoke_fst (p : WorkerPool) (env : Nat → Option Nat) (job : Job) (waitTime : Nat) :
    (p.Revoke env job waitTime).1 = (p.revokeScheduled job).1 := by
  unfold WorkerPool.Revoke
  simp only []
  rw [revokeLoop_fst]

theorem holds_iff_mem (t : Timer) (job : Job) :
    t.holds job = true ↔ job ∈ t.entries.map Prod.snd := by
  unfold Timer.holds
  simp only [List.any_eq_true, decide_eq_true_eq, List.mem_map]

theorem eraseFirst_map (job : Job) (l : List (Nat × Job)) :
    (Timer.eraseFirst job l).map Prod.snd = (l.map Prod.snd).erase job := by
  induction l with
  | nil => rfl
  | cons e rest ih =>
    unfold Timer.eraseFirst
    by_cases h : e.2 = job
    · simp [h]
    · rw [if_neg h, List.map_cons, List.map_cons, ih, List.erase_cons_tail]
      simpa using h

/-- C2 fails as stated: with `jobA` both in the timer and in the queue,
`Revoke` returns `ERROR_NONE` and the queue still holds `jobA`, because the
queue removal is skipped once the timer revocation succeeded. -/
theorem Revoke_leaves_queued_copy :
    ¬ (∀ (p : WorkerPool) (env : Nat → Option Nat) (j : Job) (waitTime : Nat),
        (p.timer.holds j = true ∨ j ∈ p.handleQueue.items) →
        (p.Revoke env j waitTime).2 = ErrorCode.ERROR_NONE →
        ((p.Revoke env j waitTime).1.timer.holds j = false ∧
          j ∉ (p.Revoke env j waitTime).1.handleQueue.items)) := by
  intro h
  have h1 := h poolSubmittedAndScheduled (fun _ => none) jobA 0 (by decide) (by decide)
  rw [Revoke_fst] at h1
  exact h1.2 (by decide)

/-- C2, amended: for every pool state and job `j` held by the timer or by the
queue, `Revoke(j)` returns `ERROR_NONE` and takes out exactly one copy of `j`:
the first one of the timer when the timer holds `j` (the queue is then left as
it is), otherwise the first one of the queue.  Hence no copy of `j` remains in
the timer or the queue exactly when they held one copy between them. -/
theorem Revoke_removes_one_copy (p : WorkerPool) (env : Nat → Option Nat) (j : Job)
    (waitTime : Nat) (hheld : p.timer.holds j = true ∨ j ∈ p.handleQueue.items) :
    (p.Revoke env j waitTime).2 = ErrorCode.ERROR_NONE ∧
    (p.timer.holds j = true →
      ((p.Revoke env j waitTime).1.timer.entries.map Prod.snd).count j + 1
        = (p.timer.entries.map Prod.snd).count j ∧
      (p.Revoke env j waitTime).1.handleQueue = p.handleQueue) ∧
    (p.timer.holds j = false →
      (p.Revoke env j waitTime).1.timer = p.timer ∧
      (p.Revoke env j waitTime).1.handleQueue.items.count j + 1
        = p.handleQueue.items.count j) ∧
    (((p.Revoke env j waitTime).1.timer.holds j = false ∧
        j ∉ (p.Revoke env j waitTime).1.handleQueue.items) ↔
      (p.timer.entries.map Prod.snd).count j + p.handleQueue.items.count j = 1) := by
  have hres : (p.Revoke env j waitTime).2 = ErrorCode.ERROR_NONE := by
    rw [Revoke_snd]
    rcases hheld with ht | hq
    · rw [if_pos]
      left
      simp [Timer.Revoke, ht]
    · rw [if_pos]
      right; left
      simp [HandleQueue.Remove, hq]
  have hA : p.timer.holds j = true →
      ((p.Revoke env j waitTime).1.timer.entries.map Prod.snd).count j + 1
        = (p.timer.entries.map Prod.snd).count j ∧
      (p.Revoke env j waitTime).1.handleQueue = p.handleQueue := by
    intro ht
    have hc : 0 < (p.timer.entries.map Prod.snd).count j :=
      List.count_pos_iff.mpr ((holds_iff_mem _ _).mp ht)
    have hrev : p.timer.Revoke j = ({ entries := Timer.eraseFirst j p.timer.entries }, true) := by
      simp [Timer.Revoke, ht]
    rw [Revoke_fst]
    unfold WorkerPool.revokeScheduled
    simp only [hrev, if_true, eraseFirst_map, List.count_erase_self, and_true]
    omega
  have hB : p.timer.holds j = false →
      (p.Revoke env j waitTime).1.timer = p.timer ∧
      (p.Revoke env j waitTime).1.handleQueue.items.count j + 1
        = p.handleQueue.items.count j := by
    intro ht
    have hmem : j ∈ p.handleQueue.items := by
      rcases hheld with h | h
      · rw [ht] at h; exact absurd h (by decide)
      · exact h
    have hc : 0 < p.handleQueue.items.count j := List.count_pos_iff.mpr hmem
    have hrev : p.timer.Revoke j = (p.timer, false) := by
      simp [Timer.Revoke, ht]
    rw [Revoke_fst]
    unfold WorkerPool.revokeScheduled
    simp only [hrev, Bool.false_eq_true, if_false, HandleQueue.Remove, hmem, if_true,
      List.count_erase_self, true_and]
    omega
  refine ⟨hres, hA, hB, ?_⟩
  have hnone : ∀ q : WorkerPool, (q.timer.holds j = false ∧ j ∉ q.handleQueue.items) ↔
      (q.timer.entries.map Prod.snd).count j + q.handleQueue.items.count j = 0 := by
    intro q
    rw [Bool.eq_false_iff, Ne, holds_iff_mem, ← List.count_eq_zero, ← List.count_eq_zero]
    omega
  rw [hnone]
  by_cases ht : p.timer.holds j = true
  · obtain ⟨h1, h2⟩ := hA ht
    rw [h2]
    omega
  · rw [Bool.not_eq_true] at ht
    obtain ⟨h1, h2⟩ := hB ht
    rw [h1]
    omega

theorem Revoke_removes_one_copy_witness :
    (((WorkerPool.init 2).Submit jobA).timer.holds jobA = true ∨
      jobA ∈ ((WorkerPool.init 2).Submit jobA).handleQueue.items) ∧
    (((WorkerPool.init 2).Submit jobA).Revoke (fun _ => none) jobA 0).2 = ErrorCode.ERROR_NONE ∧
    ((((WorkerPool.init 2).Submit jobA).Revoke (fun _ => none) jobA 0).1.timer.holds jobA = false ∧
      jobA ∉ (((WorkerPool.init 2).Submit jobA).Revoke (fun _ => none) jobA 0).1.handleQueue.items) :=
  ⟨by decide,
    (Revoke_removes_one_copy ((WorkerPool.init 2).Submit jobA) (fun _ => none) jobA 0
      (by decide)).1,
    (Revoke_removes_one_copy ((WorkerPool.init 2).Submit jobA) (fun _ => none) jobA 0
      (by decide)).2.2.2.mpr (by decide)⟩

/-! ## The executor loop: which slot a thread uses -/

theorem step_start_some (r r1 : PoolRun) (x : Executor)
    (h : r.step (PoolAction.start x) = some r1) :
    ∃ q job, r.pool.serves x = true ∧ r.current x = none ∧
      r.pool.handleQueue.Extract = some (q, job) ∧
      r1.pool.handleQueue = q ∧
      r1.pool.timer = r.pool.timer ∧
      r1.pool.metadata.Slots = r.pool.metadata.Slots ∧
      r1.pool.workerStatuses = Function.update r.pool.workerStatuses x.slot
        ((r.pool.workerStatuses x.slot).JobStarted job.Id) ∧
      r1.pool.metadata.Slot = Function.update r.pool.metadata.Slot x.slot
        ((r.pool.metadata.Slot x.slot + 1) % 2 ^ 32) ∧
      r1.pool.occupation = (r.pool.occupation + 1) % 2 ^ 8 ∧
      r1.current = Function.update r.current x (some job) ∧
      r1.dispatched = r.dispatched ++ [job] := by
  unfold PoolRun.step at h
  simp only [] at h
  split at h
  · rename_i hg
    unfold WorkerPool.processBegin at h
    simp only [WorkerPoolType.Running, if_true] at h
    cases hx : r.pool.handleQueue.Extract with
    | none => simp [hx] at h
    | some v =>
      obtain ⟨q, job⟩ := v
      simp only [hx, Option.some.injEq] at h
      subst h
      exact ⟨q, job, hg.1, hg.2, rfl, rfl, rfl, rfl, rfl, rfl, rfl, rfl, rfl⟩
  · exact absurd h (by simp)

theorem step_finish_some (r r1 : PoolRun) (x : Executor)
    (h : r.step (PoolAction.finish x) = some r1) :
    ∃ job, r.current x = some job ∧
      r1.pool.handleQueue = r.pool.handleQueue ∧
      r1.pool.timer = r.pool.timer ∧
      r1.pool.metadata = r.pool.metadata ∧
      r1.pool.workerStatuses = Function.update r.pool.workerStatuses x.slot
        (r.pool.workerStatuses x.slot).JobFinished ∧
      r1.pool.occupation = (r.pool.occupation + 2 ^ 8 - 1) % 2 ^ 8 ∧
      r1.current = Function.update r.current x none ∧
      r1.dispatched = r.dispatched := by
  unfold PoolRun.step at h
  simp only [] at h
  cases hc : r.current x with
  | none => simp [hc] at h
  | some job =>
    simp only [hc, Option.some.injEq] at h
    subst h
    exact ⟨job, rfl, rfl, rfl, rfl, rfl, rfl, rfl, rfl⟩

/-- C3 fails on the code: after `Submit(jobA)` the thread that called `Join`
runs `Process(0)` and registers `jobA` in `WorkerStatus` slot 0; the loop of
`Revoke` starts at slot 1, so although the dispatch finishes within the wait
(a wait on slot 0 would return `ERROR_NONE`), `Revoke` returns
`ERROR_UNAVAILABLE`. -/
theorem Revoke_misses_joined_thread :
    (PoolRun.init 2).run [PoolAction.submit jobA, PoolAction.start Executor.joined]
      = some runJoinedDispatchesA ∧
    runJoinedDispatchesA.current Executor.joined = some jobA ∧
    (runJoinedDispatchesA.pool.workerStatuses 0).jobID = jobA.Id ∧
    ((runJoinedDispatchesA.pool.workerStatuses 0).WaitForJobDone (some 10) jobA.Id 500).2
      = ErrorCode.ERROR_NONE ∧
    0 ∉ runJoinedDispatchesA.pool.revokeSlots ∧
    (runJoinedDispatchesA.pool.Revoke (fun _ => some 10) jobA 500).2
      = ErrorCode.ERROR_UNAVAILABLE := by
  refine ⟨rfl, by decide, by decide, by decide, by decide, by decide⟩

/-- C4 fails as stated: when the thread that called `Join` takes a job, it is
slot 0 whose `WorkerStatus` and counter change, and slot 1 is left as it
was. -/
theorem Join_does_not_use_slot_one :
    ¬ (∀ (r r1 : PoolRun), r.step (PoolAction.start Executor.joined) = some r1 →
        (r1.pool.metadata.Slot 1 = (r.pool.metadata.Slot 1 + 1) % 2 ^ 32 ∧
         r1.pool.metadata.Slot 0 = r.pool.metadata.Slot 0 ∧
         r1.pool.workerStatuses 0 = r.pool.workerStatuses 0)) := by
  intro h
  have h1 := h runSubmittedA runJoinedDispatchesA rfl
  exact absurd h1.1 (by decide)

/-- C4, amended: `Join` runs the executor loop as slot 0.  A job taken by the
thread that called `Join` is registered with `JobStarted` in `WorkerStatus`
slot 0 and counted in the counter of slot 0, `JobFinished` is called on slot 0
when its dispatch returns, and the `WorkerStatus` and counter of every other
slot, slot 1 included, are left unchanged. -/
theorem Join_runs_as_slot_zero (r : PoolRun) :
    (∀ r1, r.step (PoolAction.start Executor.joined) = some r1 →
      ∃ q job, r.pool.handleQueue.Extract = some (q, job) ∧
        r1.current Executor.joined = some job ∧
        r1.pool.workerStatuses 0 = (r.pool.workerStatuses 0).JobStarted job.Id ∧
        r1.pool.metadata.Slot 0 = (r.pool.metadata.Slot 0 + 1) % 2 ^ 32 ∧
        ∀ i, i ≠ 0 → (r1.pool.workerStatuses i = r.pool.workerStatuses i ∧
          r1.pool.metadata.Slot i = r.pool.metadata.Slot i)) ∧
    (∀ r1, r.step (PoolAction.finish Executor.joined) = some r1 →
      r1.pool.workerStatuses 0 = (r.pool.workerStatuses 0).JobFinished ∧
      r1.current Executor.joined = none ∧
      ∀ i, (i ≠ 0 → r1.pool.workerStatuses i = r.pool.workerStatuses i) ∧
        r1.pool.metadata.Slot i = r.pool.metadata.Slot i) := by
  constructor
  · intro r1 h
    obtain ⟨q, job, -, -, hx, -, -, -, hws, hsl, -, hcur, -⟩ := step_start_some r r1 _ h
    refine ⟨q, job, hx, ?_, ?_, ?_, ?_⟩
    · rw [hcur, Function.update_same]
    · rw [hws]
      exact Function.update_same _ _ _
    · rw [hsl]
      exact Function.update_same _ _ _
    · intro i hi
      rw [hws, hsl]
      exact ⟨Function.update_noteq hi _ _, Function.update_noteq hi _ _⟩
  · intro r1 h
    obtain ⟨job, -, -, -, hmd, hws, -, hcur, -⟩ := step_finish_some r r1 _ h
    refine ⟨?_, ?_, ?_⟩
    · rw [hws]
      exact Function.update_same _ _ _
    · rw [hcur, Function.update_same]
    · intro i
      refine ⟨fun hi => ?_, by rw [hmd]⟩
      rw [hws]
      exact Function.update_noteq hi _ _

theorem Join_runs_as_slot_zero_witness :
    runSubmittedA.step (PoolAction.start Executor.joined) = some runJoinedDispatchesA ∧
    runJoinedDispatchesA.pool.metadata.Slot 0
        = (runSubmittedA.pool.metadata.Slot 0 + 1) % 2 ^ 32 ∧
    runJoinedDispatchesA.step (PoolAction.finish Executor.joined) = some runJoinedFinishedA ∧
    runJoinedFinishedA.pool.workerStatuses 0
        = (runJoinedDispatchesA.pool.workerStatuses 0).JobFinished := by
  refine ⟨rfl, ?_, rfl, ?_⟩
  · obtain ⟨_, _, _, _, _, h, _⟩ :=
      (Join_runs_as_slot_zero runSubmittedA).1 runJoinedDispatchesA rfl
    exact h
  · exact ((Join_runs_as_slot_zero runJoinedDispatchesA).2 runJoinedFinishedA rfl).1

/-! ## Dispatch counting -/

theorem sum_map_update (f : Nat → Nat) (i v n : Nat) (hi : i < n) :
    ((List.range n).map (Function.update f i v)).sum + f i
      = ((List.range n).map f).sum + v := by
  induction n with
  | zero => omega
  | succ n ih =>
    rw [List.range_succ, List.map_append, List.map_append, List.sum_append, List.sum_append]
    simp only [List.map_cons, List.map_nil, List.sum_cons, List.sum_nil, Nat.add_zero]
    by_cases hin : i = n
    · subst hin
      have hsame : (List.range i).map (Function.update f i v) = (List.range i).map f := by
        apply List.map_congr_left
        intro a ha
        rw [List.mem_range] at ha
        exact Function.update_noteq (by omega) _ _
      rw [hsame, Function.update_same]
      omega
    · have hlt : i < n := by omega
      have h1 := ih hlt
      rw [Function.update_noteq (Ne.symm hin)]
      omega

theorem serves_slot_lt (p : WorkerPool) (x : Executor) (hN : 0 < p.metadata.Slots)
    (h : p.serves x = true) : x.slot < p.metadata.Slots := by
  cases x with
  | joined => exact hN
  | minion index =>
    simp only [WorkerPool.serves, WorkerPool.runIndexes, decide_eq_true_eq,
      List.mem_range'_1] at h
    simp only [Executor.slot]
    omega

theorem Extract_some (q q1 : HandleQueue) (job : Job) (h : q.Extract = some (q1, job)) :
    q.enabled = true ∧ q.items = job :: q1.items ∧ q1.enabled = q.enabled := by
  unfold HandleQueue.Extract at h
  split at h
  · rename_i he
    cases hi : q.items with
    | nil => simp [hi] at h
    | cons j rest =>
      simp only [hi, Option.some.injEq, Prod.mk.injEq] at h
      obtain ⟨h1, h2⟩ := h
      subst h1 h2
      exact ⟨he, rfl, rfl⟩
  · exact absurd h (by simp)

theorem CountInv_init (threadCount : Nat) (hN : 0 < threadCount) :
    CountInv (PoolRun.init threadCount) [] := by
  refine ⟨hN, rfl, rfl, ?_⟩
  show ((List.range threadCount).map (fun _ => 0)).sum = 0
  induction threadCount with
  | zero => rfl
  | succ n _ => simp

theorem CountInv_submit (r : PoolRun) (sub : List Job) (job : Job) (h : CountInv r sub) :
    CountInv { r with pool := r.pool.Submit job } (sub ++ [job]) := by
  obtain ⟨h1, h2, h3, h4⟩ := h
  have hq : (r.pool.Submit job).handleQueue
      = { r.pool.handleQueue with items := r.pool.handleQueue.items ++ [job] } := by
    simp [WorkerPool.Submit, HandleQueue.Insert, h2]
  refine ⟨h1, ?_, ?_, h4⟩
  · show (r.pool.Submit job).handleQueue.enabled = true
    rw [hq]
    exact h2
  · show r.dispatched ++ (r.pool.Submit job).handleQueue.items = sub ++ [job]
    rw [hq, ← h3, List.append_assoc]

theorem CountInv_start (r r1 : PoolRun) (sub : List Job) (x : Executor) (h : CountInv r sub)
    (hlen : sub.length < 2 ^ 32) (hs : r.step (PoolAction.start x) = some r1) :
    CountInv r1 sub ∧
    ∃ job, r1.dispatched = r.dispatched ++ [job] ∧
      r1.pool.metadata.Slot x.slot = r.pool.metadata.Slot x.slot + 1 ∧
      ∀ i, i ≠ x.slot → r1.pool.metadata.Slot i = r.pool.metadata.Slot i := by
  obtain ⟨h1, h2, h3, h4⟩ := h
  obtain ⟨q, job, hsv, -, hx, hq, -, hsl, -, hcs, -, -, hd⟩ := step_start_some r r1 x hs
  obtain ⟨-, hitems, hen⟩ := Extract_some _ _ _ hx
  have hlt := serves_slot_lt r.pool x h1 hsv
  have hsum := sum_map_update r.pool.metadata.Slot x.slot
    ((r.pool.metadata.Slot x.slot + 1) % 2 ^ 32) r.pool.metadata.Slots hlt
  have hsum0 := sum_map_update r.pool.metadata.Slot x.slot 0 r.pool.metadata.Slots hlt
  have hdl : r.dispatched.length + 1 ≤ sub.length := by
    rw [← h3, hitems]
    simp
  unfold WorkerPool.counterSum at h4
  have hsmall : r.pool.metadata.Slot x.slot + 1 < 2 ^ 32 := by omega
  have hmod : (r.pool.metadata.Slot x.slot + 1) % 2 ^ 32 = r.pool.metadata.Slot x.slot + 1 :=
    Nat.mod_eq_of_lt hsmall
  refine ⟨⟨?_, ?_, ?_, ?_⟩, job, hd, ?_, ?_⟩
  · rw [hsl]; exact h1
  · rw [hq, hen]; exact h2
  · rw [hd, hq, ← h3, hitems]
    simp
  · unfold WorkerPool.counterSum
    rw [hsl, hcs, hd, List.length_append, List.length_singleton]
    omega
  · rw [hcs, Function.update_same, hmod]
  · intro i hi
    rw [hcs]
    exact Function.update_noteq hi _ _

theorem CountInv_finish (r r1 : PoolRun) (sub : List Job) (x : Executor) (h : CountInv r sub)
    (hs : r.step (PoolAction.finish x) = some r1) : CountInv r1 sub := by
  obtain ⟨h1, h2, h3, h4⟩ := h
  obtain ⟨job, -, hq, -, hmd, -, -, -, hd⟩ := step_finish_some r r1 x hs
  refine ⟨?_, ?_, ?_, ?_⟩
  · rw [hmd]; exact h1
  · rw [hq]; exact h2
  · rw [hd, hq]; exact h3
  · unfold WorkerPool.counterSum at h4 ⊢
    rw [hmd, hd]; exact h4

theorem submitted_append (l1 l2 : List PoolAction) :
    PoolAction.submitted (l1 ++ l2) = PoolAction.submitted l1 ++ PoolAction.submitted l2 := by
  induction l1 with
  | nil => rfl
  | cons a rest ih =>
    cases a with
    | submit job => simp [PoolAction.submitted, ih]
    | start x => simpa [PoolAction.submitted] using ih
    | finish x => simpa [PoolAction.submitted] using ih

theorem run_cons_some (r r2 : PoolRun) (a : PoolAction) (rest : List PoolAction)
    (h : r.run (a :: rest) = some r2) :
    ∃ r1, r.step a = some r1 ∧ r1.run rest = some r2 := by
  unfold PoolRun.run at h
  cases hs : r.step a with
  | none => simp [hs] at h
  | some r1 =>
    simp only [hs] at h
    exact ⟨r1, rfl, h⟩

theorem run_split (pre : List PoolAction) (a : PoolAction) (post : List PoolAction)
    (r r3 : PoolRun) (h : r.run (pre ++ a :: post) = some r3) :
    ∃ r1 r2, r.run pre = some r1 ∧ r1.step a = some r2 ∧ r2.run post = some r3 := by
  induction pre generalizing r with
  | nil =>
    obtain ⟨r1, h1, h2⟩ := run_cons_some r r3 a post h
    exact ⟨r, r1, rfl, h1, h2⟩
  | cons b rest ih =>
    obtain ⟨r1, h1, h2⟩ := run_cons_some r r3 b (rest ++ a :: post) h
    obtain ⟨r2, r4, h3, h4, h5⟩ := ih r1 h2
    refine ⟨r2, r4, ?_, h4, h5⟩
    show PoolRun.run r (b :: rest) = some r2
    unfold PoolRun.run
    simp only [h1]
    exact h3

theorem run_CountInv (acts : List PoolAction) (r r1 : PoolRun) (sub : List Job)
    (h : CountInv r sub) (hlen : sub.length + (PoolAction.submitted acts).length < 2 ^ 32)
    (hrun : r.run acts = some r1) : CountInv r1 (sub ++ PoolAction.submitted acts) := by
  induction acts generalizing r sub with
  | nil =>
    simp only [PoolRun.run, Option.some.injEq] at hrun
    subst hrun
    simpa [PoolAction.submitted] using h
  | cons a rest ih =>
    obtain ⟨r2, h1, h2⟩ := run_cons_some r r1 a rest hrun
    cases a with
    | submit job =>
      simp only [PoolRun.step, Option.some.injEq] at h1
      subst h1
      have hi := CountInv_submit r sub job h
      simp only [PoolAction.submitted, List.length_cons] at hlen
      have hlen2 : (sub ++ [job]).length + (PoolAction.submitted rest).length < 2 ^ 32 := by
        simp only [List.length_append, List.length_singleton]
        omega
      have := ih _ (sub ++ [job]) hi hlen2 h2
      simpa [PoolAction.submitted] using this
    | start x =>
      simp only [PoolAction.submitted] at hlen ⊢
      exact ih r2 sub (CountInv_start r r2 sub x h (by omega) h1).1 hlen h2
    | finish x =>
      simp only [PoolAction.submitted] at hlen ⊢
      exact ih r2 sub (CountInv_finish r r2 sub x h h1) hlen h2

/-- C5: dispatch-count equality.  From a pool with counters at zero, after any
interleaving of `k < 2^32` submissions with the moves of the executor threads
that leaves the queue empty, the per-slot counters add up to `k` and the jobs
dispatched are the jobs submitted, each as often as it was submitted; and
every time a thread takes a job, the counter of its own slot goes up by
exactly 1, no other counter changes, and that job is dispatched once. -/
theorem dispatch_count_equality (threadCount : Nat) (hN : 0 < threadCount)
    (acts : List PoolAction) (r : PoolRun)
    (hrun : (PoolRun.init threadCount).run acts = some r)
    (hk : (PoolAction.submitted acts).length < 2 ^ 32)
    (hdrained : r.pool.handleQueue.items = []) :
    r.pool.counterSum = (PoolAction.submitted acts).length ∧
    r.dispatched.Perm (PoolAction.submitted acts) ∧
    ∀ pre x post, acts = pre ++ PoolAction.start x :: post →
      ∃ r1 r2 job, (PoolRun.init threadCount).run pre = some r1 ∧
        r1.step (PoolAction.start x) = some r2 ∧
        r2.dispatched = r1.dispatched ++ [job] ∧
        r2.pool.metadata.Slot x.slot = r1.pool.metadata.Slot x.slot + 1 ∧
        ∀ i, i ≠ x.slot → r2.pool.metadata.Slot i = r1.pool.metadata.Slot i := by
  have hinv := run_CountInv acts _ r [] (CountInv_init threadCount hN)
    (by simpa using hk) hrun
  obtain ⟨-, -, h3, h4⟩ := hinv
  rw [hdrained, List.append_nil, List.nil_append] at h3
  refine ⟨?_, ?_, ?_⟩
  · rw [h4, h3]
  · rw [h3]
  · intro pre x post hsplit
    subst hsplit
    obtain ⟨r1, r2, h5, h6, -⟩ := run_split pre _ post _ r hrun
    have hpre : (PoolAction.submitted pre).length < 2 ^ 32 := by
      rw [submitted_append, List.length_append] at hk
      omega
    have hinv1 := run_CountInv pre _ r1 [] (CountInv_init threadCount hN)
      (by simpa using hpre) h5
    obtain ⟨-, job, h7, h8, h9⟩ := CountInv_start r1 r2 _ x hinv1 (by simpa using hpre) h6
    exact ⟨r1, r2, job, h5, h6, h7, h8, h9⟩

theorem dispatch_count_equality_witness :
    (PoolRun.init 3).run twoJobsTrace = some runTwoJobs ∧
    runTwoJobs.pool.handleQueue.items = [] ∧
    runTwoJobs.pool.counterSum = 2 ∧
    runTwoJobs.dispatched.Perm [jobA, jobB] :=
  ⟨rfl, rfl,
    (dispatch_count_equality 3 (by decide) twoJobsTrace runTwoJobs rfl (by decide) rfl).1,
    (dispatch_count_equality 3 (by decide) twoJobsTrace runTwoJobs rfl (by decide) rfl).2.1⟩

/-! ## WorkerStatus -/

theorem after_fold_invariant (calls : List StatusCall) (w : WorkerStatus)
    (hw : w.jobRunning.signaled = true ↔ w.jobID = 0)
    (hids : ∀ jobID, StatusCall.JobStarted jobID ∈ calls → jobID ≠ 0) :
    (calls.foldl WorkerStatus.call w).jobRunning.signaled = true ↔
      (calls.foldl WorkerStatus.call w).jobID = 0 := by
  induction calls generalizing w with
  | nil => exact hw
  | cons c rest ih =>
    rw [List.foldl_cons]
    apply ih
    · cases c with
      | JobStarted jobID =>
        have hne : jobID ≠ 0 := hids jobID (List.mem_cons_self _ _)
        simp [WorkerStatus.call, WorkerStatus.JobStarted, Event.ResetEvent, hne]
      | JobFinished =>
        simp [WorkerStatus.call, WorkerStatus.JobFinished, Event.SetEvent]
    · intro jobID hmem
      exact hids jobID (List.mem_cons_of_mem _ hmem)

/-- C6 fails as stated: after `JobStarted(0)` on a fresh `WorkerStatus` the
event is not signaled although `_jobID` is `0`. -/
theorem JobStarted_zero_breaks_invariant :
    ¬ (∀ calls : List StatusCall,
        (WorkerStatus.after calls).jobRunning.signaled = true ↔
          (WorkerStatus.after calls).jobID = 0) := by
  intro h
  have h1 := (h [StatusCall.JobStarted 0]).mpr (by decide)
  exact absurd h1 (by decide)

/-- C6, amended: in every state reached from a fresh `WorkerStatus` by calls
of `JobStarted(id)` with `id` not `0` and of `JobFinished`, the event is
signaled if and only if `_jobID` is `0`. -/
theorem WorkerStatus_signaled_iff_idle (calls : List StatusCall)
    (hids : ∀ jobID, StatusCall.JobStarted jobID ∈ calls → jobID ≠ 0) :
    (WorkerStatus.after calls).jobRunning.signaled = true ↔
      (WorkerStatus.after calls).jobID = 0 := by
  unfold WorkerStatus.after
  exact after_fold_invariant calls WorkerStatus.init (by decide) hids

theorem WorkerStatus_signaled_iff_idle_witness :
    ((WorkerStatus.after [StatusCall.JobStarted 4096, StatusCall.JobFinished,
        StatusCall.JobStarted 8192]).jobRunning.signaled = true ↔
      (WorkerStatus.after [StatusCall.JobStarted 4096, StatusCall.JobFinished,
        StatusCall.JobStarted 8192]).jobID = 0) :=
  WorkerStatus_signaled_iff_idle
    [StatusCall.JobStarted 4096, StatusCall.JobFinished, StatusCall.JobStarted 8192]
    (by intro jobID hmem; simp at hmem; omega)

theorem WaitForJobDone_snd (w : WorkerStatus) (setAfter : Option Nat) (jobID waitTimeMs : Nat) :
    (w.WaitForJobDone setAfter jobID waitTimeMs).2 =
      if w.jobID = jobID then (w.jobRunning.Lock setAfter waitTimeMs).2
      else ErrorCode.ERROR_UNKNOWN_KEY := by
  unfold WorkerStatus.WaitForJobDone
  split <;> rfl

theorem Lock_snd_ne_unknown (e : Event) (setAfter : Option Nat) (waitTime : Nat) :
    (e.Lock setAfter waitTime).2 = ErrorCode.ERROR_NONE ∨
      (e.Lock setAfter waitTime).2 = ErrorCode.ERROR_TIMEDOUT := by
  unfold Event.Lock
  cases e.signaled
  · cases setAfter with
    | none => simp
    | some t => by_cases ht : t ≤ waitTime <;> simp [ht]
  · simp

/-- C7 fails as stated: on an idle slot (`_jobID` is `0`) `WaitForJobDone(0, _)`
does not return `ERROR_UNKNOWN_KEY` although the slot runs no job; it waits
on the signaled event and returns `ERROR_NONE`. -/
theorem WaitForJobDone_zero_on_idle :
    ¬ (∀ (w : WorkerStatus) (setAfter : Option Nat) (jobID waitTimeMs : Nat),
        (w.WaitForJobDone setAfter jobID waitTimeMs).2 = ErrorCode.ERROR_UNKNOWN_KEY ↔
          ¬ w.runs jobID) := by
  intro h
  have h1 := (h WorkerStatus.init none 0 0).mpr (by simp [WorkerStatus.runs, WorkerStatus.init])
  exact absurd h1 (by decide)

/-- C7, amended: for every `WorkerStatus` state, every `id` other than `0` and
every `waitMs`, `WaitForJobDone(id, waitMs)` returns `ERROR_UNKNOWN_KEY` if and
only if the slot is not running a job of identity `id`; otherwise it returns
the outcome of the wait on the event, `ERROR_NONE` or `ERROR_TIMEDOUT`.  For
every `id` it leaves `_jobID` (and the event) as they were. -/
theorem WaitForJobDone_unknown_iff (w : WorkerStatus) (setAfter : Option Nat)
    (jobID waitTimeMs : Nat) :
    (jobID ≠ 0 →
      (((w.WaitForJobDone setAfter jobID waitTimeMs).2 = ErrorCode.ERROR_UNKNOWN_KEY ↔
          ¬ w.runs jobID) ∧
       (w.runs jobID →
          (w.WaitForJobDone setAfter jobID waitTimeMs).2
            = (w.jobRunning.Lock setAfter waitTimeMs).2 ∧
          ((w.WaitForJobDone setAfter jobID waitTimeMs).2 = ErrorCode.ERROR_NONE ∨
           (w.WaitForJobDone setAfter jobID waitTimeMs).2 = ErrorCode.ERROR_TIMEDOUT)))) ∧
    (w.WaitForJobDone setAfter jobID waitTimeMs).1.jobID = w.jobID ∧
    (w.WaitForJobDone setAfter jobID waitTimeMs).1 = w := by
  refine ⟨fun hne => ⟨?_, ?_⟩, by rw [WaitForJobDone_fst], WaitForJobDone_fst _ _ _ _⟩
  · rw [WaitForJobDone_snd]
    unfold WorkerStatus.runs
    by_cases heq : w.jobID = jobID
    · rw [if_pos heq]
      constructor
      · intro hl
        rcases Lock_snd_ne_unknown w.jobRunning setAfter waitTimeMs with h | h
        · rw [h] at hl; exact absurd hl (by decide)
        · rw [h] at hl; exact absurd hl (by decide)
      · intro hn
        exact absurd ⟨by rw [heq]; exact hne, heq⟩ hn
    · rw [if_neg heq]
      exact ⟨fun _ hr => heq hr.2, fun _ => rfl⟩
  · intro hr
    rw [WaitForJobDone_snd, if_pos hr.2]
    exact ⟨rfl, Lock_snd_ne_unknown _ _ _⟩

theorem WaitForJobDone_unknown_iff_witness :
    (4096 ≠ 0) ∧
    ((WorkerStatus.init.WaitForJobDone none 4096 100).2 = ErrorCode.ERROR_UNKNOWN_KEY ↔
      ¬ WorkerStatus.init.runs 4096) :=
  ⟨by decide, ((WaitForJobDone_unknown_iff WorkerStatus.init none 4096 100).1 (by decide)).1⟩

/-! ## DispatcherType: pending entries -/

theorem count_set_add (l : List ExecPhase) (e : Nat) (a b x : ExecPhase)
    (h : l.get? e = some a) :
    (l.set e b).count x + (if a = x then 1 else 0)
      = l.count x + (if b = x then 1 else 0) := by
  induction l generalizing e with
  | nil => simp at h
  | cons c rest ih =>
    cases e with
    | zero =>
      simp only [List.get?_cons_zero, Option.some.injEq] at h
      subst h
      simp only [List.set_cons_zero, List.count_cons, beq_iff_eq]
      omega
    | succ e =>
      simp only [List.get?_cons_succ] at h
      have := ih e h
      simp only [List.set_cons_succ, List.count_cons, beq_iff_eq]
      omega

theorem step_extract_some (self : Job) (s s1 : DispatcherRun) (e : Nat)
    (h : s.step self (DispatcherAction.extract e) = some s1) :
    ∃ q job, s.exec.get? e = some ExecPhase.idle ∧ s.queue.Extract = some (q, job) ∧
      s1 = { s with queue := q, exec := s.exec.set e (ExecPhase.holding job) } := by
  unfold DispatcherRun.step at h
  simp only [] at h
  split at h
  · rename_i q job h1 h2
    simp only [Option.some.injEq] at h
    exact ⟨q, job, h1, h2, h.symm⟩
  · exact absurd h (by simp)

theorem step_enter_some (self : Job) (s s1 : DispatcherRun) (e : Nat)
    (h : s.step self (DispatcherAction.enter e) = some s1) :
    ∃ job, s.exec.get? e = some (ExecPhase.holding job) ∧
      ((job = self ∧ s1 = { s with
          dispatcher := { submitted := (compare_exchange_strong s.dispatcher.submitted true false).1 }
          exec := s.exec.set e
            (if (compare_exchange_strong s.dispatcher.submitted true false).2 = true
              then ExecPhase.inside else ExecPhase.idle) }) ∨
       (job ≠ self ∧ s1 = { s with exec := s.exec.set e ExecPhase.idle })) := by
  unfold DispatcherRun.step at h
  simp only [] at h
  split at h
  · rename_i job h1
    refine ⟨job, h1, ?_⟩
    by_cases hj : job = self
    · rw [if_pos hj] at h
      simp only [Option.some.injEq] at h
      exact Or.inl ⟨hj, h.symm⟩
    · rw [if_neg hj] at h
      simp only [Option.some.injEq] at h
      exact Or.inr ⟨hj, h.symm⟩
  · exact absurd h (by simp)

theorem step_leave_some (self : Job) (s s1 : DispatcherRun) (e : Nat)
    (h : s.step self (DispatcherAction.leave e) = some s1) :
    s.exec.get? e = some ExecPhase.inside ∧
      s1 = { s with exec := s.exec.set e ExecPhase.idle } := by
  unfold DispatcherRun.step at h
  simp only [] at h
  split at h
  · rename_i h1
    simp only [Option.some.injEq] at h
    exact ⟨h1, h.symm⟩
  · exact absurd h (by simp)

theorem PendingInv_init (self : Job) (n : Nat) : PendingInv self (DispatcherRun.init n) := by
  refine ⟨rfl, ?_⟩
  simp [DispatcherRun.pending, DispatcherRun.init, DispatcherType.init, List.count_replicate]

theorem PendingInv_step (self : Job) (s s1 : DispatcherRun) (a : DispatcherAction)
    (hinv : PendingInv self s) (h : s.step self a = some s1) :
    PendingInv self s1 ∧
    (a = DispatcherAction.submit → s1.insideCount = s.insideCount) ∧
    (a ≠ DispatcherAction.submit →
      s1.pending self + s1.insideCount ≤ s.pending self + s.insideCount) := by
  obtain ⟨hen, hp⟩ := hinv
  unfold DispatcherRun.pending at hp
  cases a with
  | submit =>
    simp only [DispatcherRun.step, Option.some.injEq] at h
    subst h
    refine ⟨⟨?_, ?_⟩, fun _ => rfl, fun hne => absurd rfl hne⟩
    · cases hs : s.dispatcher.submitted <;>
        simp [DispatcherType.Submit, compare_exchange_strong, hs, HandleQueue.Insert, hen]
    · cases hs : s.dispatcher.submitted
      · rw [hs] at hp
        simp only [DispatcherRun.pending, DispatcherType.Submit, compare_exchange_strong, hs,
          HandleQueue.Insert, hen, if_true, List.count_append, List.count_singleton_self]
        simp only [Bool.false_eq_true, if_false] at hp
        omega
      · rw [hs] at hp
        simp only [DispatcherRun.pending, DispatcherType.Submit, compare_exchange_strong, hs,
          Bool.true_eq_false, if_false, Bool.false_eq_true]
        simpa using hp
  | other job =>
    simp only [DispatcherRun.step] at h
    by_cases hj : job = self
    · rw [if_pos hj] at h
      exact absurd h (by simp)
    · rw [if_neg hj] at h
      simp only [Option.some.injEq] at h
      subst h
      have hc : [job].count self = 0 := by
        rw [List.count_eq_zero]
        simpa using Ne.symm hj
      refine ⟨⟨?_, ?_⟩, fun hq => absurd hq (by simp), fun _ => ?_⟩
      · simp [HandleQueue.Insert, hen]
      · simp only [DispatcherRun.pending, HandleQueue.Insert, hen, if_true, List.count_append, hc]
        simpa using hp
      · simp only [DispatcherRun.pending, DispatcherRun.insideCount, HandleQueue.Insert, hen,
          if_true, List.count_append, hc]
        omega
  | extract e =>
    obtain ⟨q, job, hget, hx, rfl⟩ := step_extract_some self s s1 e h
    obtain ⟨-, hitems, hen1⟩ := Extract_some _ _ _ hx
    have hc1 := count_set_add s.exec e ExecPhase.idle (ExecPhase.holding job)
      (ExecPhase.holding self) hget
    have hc2 := count_set_add s.exec e ExecPhase.idle (ExecPhase.holding job)
      ExecPhase.inside hget
    simp only [reduceCtorEq, if_false, Nat.add_zero] at hc1 hc2
    rw [hitems, List.count_cons] at hp
    have hpend : q.items.count self + (s.exec.set e (ExecPhase.holding job)).count
        (ExecPhase.holding self) = s.queue.items.count self
          + s.exec.count (ExecPhase.holding self) := by
      rw [hitems, List.count_cons, hc1]
      by_cases hj : job = self
      · simp only [hj, beq_self_eq_true, if_true]
        omega
      · have hj2 : ¬ ExecPhase.holding job = ExecPhase.holding self := by
          intro hh
          exact hj (ExecPhase.holding.inj hh)
        simp only [hj2, if_false, beq_iff_eq, hj]
        omega
    refine ⟨⟨?_, ?_⟩, fun hq => absurd hq (by simp), fun _ => ?_⟩
    · show q.enabled = true
      rw [hen1]; exact hen
    · show q.items.count self + _ = _
      rw [hpend, hitems, List.count_cons]
      exact hp
    · show q.items.count self + _ + (s.exec.set e (ExecPhase.holding job)).count
        ExecPhase.inside ≤ _
      rw [hpend, hc2]
      exact Nat.le_refl _
  | enter e =>
    obtain ⟨job, hget, hcase⟩ := step_enter_some self s s1 e h
    rcases hcase with ⟨hj, rfl⟩ | ⟨hj, rfl⟩
    · subst hj
      have hpos : 0 < s.exec.count (ExecPhase.holding job) :=
        List.count_pos_iff.mpr (List.get?_mem hget)
      have hsub : s.dispatcher.submitted = true := by
        by_contra hn
        rw [if_neg hn] at hp
        omega
      rw [if_pos hsub] at hp
      have hc1 := count_set_add s.exec e (ExecPhase.holding job) ExecPhase.inside
        (ExecPhase.holding job) hget
      have hc2 := count_set_add s.exec e (ExecPhase.holding job) ExecPhase.inside
        ExecPhase.inside hget
      simp only [reduceCtorEq, if_false, if_true, Nat.add_zero] at hc1 hc2
      refine ⟨⟨hen, ?_⟩, fun hq => absurd hq (by simp), fun _ => ?_⟩
      · simp only [DispatcherRun.pending, compare_exchange_strong, hsub, if_true,
          Bool.false_eq_true, if_false]
        omega
      · simp only [DispatcherRun.pending, DispatcherRun.insideCount, compare_exchange_strong,
          hsub, if_true]
        omega
    · have hj2 : ¬ ExecPhase.holding job = ExecPhase.holding self := by
        intro hh
        exact hj (ExecPhase.holding.inj hh)
      have hc1 := count_set_add s.exec e (ExecPhase.holding job) ExecPhase.idle
        (ExecPhase.holding self) hget
      have hc2 := count_set_add s.exec e (ExecPhase.holding job) ExecPhase.idle
        ExecPhase.inside hget
      simp only [reduceCtorEq, hj2, if_false, Nat.add_zero] at hc1 hc2
      refine ⟨⟨hen, ?_⟩, fun hq => absurd hq (by simp), fun _ => ?_⟩
      · simp only [DispatcherRun.pending, hc1]
        exact hp
      · simp only [DispatcherRun.pending, DispatcherRun.insideCount, hc1, hc2]
        exact Nat.le_refl _
  | leave e =>
    obtain ⟨hget, rfl⟩ := step_leave_some self s s1 e h
    have hc1 := count_set_add s.exec e ExecPhase.inside ExecPhase.idle
      (ExecPhase.holding self) hget
    have hc2 := count_set_add s.exec e ExecPhase.inside ExecPhase.idle
      ExecPhase.inside hget
    simp only [reduceCtorEq, if_false, if_true, Nat.add_zero] at hc1 hc2
    refine ⟨⟨hen, ?_⟩, fun hq => absurd hq (by simp), fun _ => ?_⟩
    · simp only [DispatcherRun.pending, hc1]
      exact hp
    · simp only [DispatcherRun.pending, DispatcherRun.insideCount, hc1]
      omega

theorem dispatcher_run_cons (self : Job) (s s2 : DispatcherRun) (a : DispatcherAction)
    (rest : List DispatcherAction) (h : s.run self (a :: rest) = some s2) :
    ∃ s1, s.step self a = some s1 ∧ s1.run self rest = some s2 := by
  unfold DispatcherRun.run at h
  cases hs : s.step self a with
  | none => simp [hs] at h
  | some s1 =>
    simp only [hs] at h
    exact ⟨s1, rfl, h⟩

theorem PendingInv_run (self : Job) (acts : List DispatcherAction) (s s1 : DispatcherRun)
    (hinv : PendingInv self s) (h : s.run self acts = some s1) : PendingInv self s1 := by
  induction acts generalizing s with
  | nil =>
    simp only [DispatcherRun.run, Option.some.injEq] at h
    subst h
    exact hinv
  | cons a rest ih =>
    obtain ⟨s2, h1, h2⟩ := dispatcher_run_cons self s s1 a rest h
    exact ih s2 (PendingInv_step self s s2 a hinv h1).1 h2

/-- C8: at most one outstanding submission.  In every state reached from a
freshly constructed dispatcher by `Submit`, submissions of other jobs,
executors extracting entries, and executors calling `Dispatch` on the entry
they hold, the dispatcher has at most one pending entry (queued, or extracted
and not yet past the compare-exchange), it has exactly one if and only if
`_submitted` is true, and `Submit` leaves the queue unchanged when `_submitted`
is already true. -/
theorem at_most_one_pending (n : Nat) (self : Job) (acts : List DispatcherAction)
    (s : DispatcherRun) (h : (DispatcherRun.init n).run self acts = some s) :
    s.pending self ≤ 1 ∧
    (s.pending self = 1 ↔ s.dispatcher.submitted = true) ∧
    (s.dispatcher.submitted = true →
      (s.dispatcher.Submit self s.queue).2 = s.queue ∧
      s.step self DispatcherAction.submit = some s) := by
  obtain ⟨-, hp⟩ := PendingInv_run self acts _ s (PendingInv_init self n) h
  refine ⟨?_, ?_, ?_⟩
  · rw [hp]; split <;> omega
  · rw [hp]
    by_cases hs : s.dispatcher.submitted = true
    · simp [hs]
    · simp [hs]
  · intro hs
    have h1 : s.dispatcher.Submit self s.queue = (s.dispatcher, s.queue) := by
      cases hd : s.dispatcher with
      | mk submitted =>
        rw [hd] at hs
        simp only at hs
        subst hs
        simp [DispatcherType.Submit, compare_exchange_strong]
    refine ⟨by rw [h1], ?_⟩
    simp only [DispatcherRun.step, h1]

theorem at_most_one_pending_witness :
    (DispatcherRun.init 2).run jobA coalescedTrace = some runCoalesced ∧
    runCoalesced.pending jobA ≤ 1 ∧
    (runCoalesced.pending jobA = 1 ↔ runCoalesced.dispatcher.submitted = true) :=
  ⟨by decide,
    (at_most_one_pending 2 jobA coalescedTrace runCoalesced (by decide)).1,
    (at_most_one_pending 2 jobA coalescedTrace runCoalesced (by decide)).2.1⟩

/-! ## DispatcherType: executors inside the implementation -/

/-- C9 fails as stated: with two executors, a `Submit` made while executor 0
is inside `_implementation.Dispatch()` enqueues a fresh entry, which executor
1 extracts and dispatches; both executors are then inside
`_implementation.Dispatch()` at the same time. -/
theorem two_executors_inside :
    ¬ (∀ (n : Nat) (self : Job) (acts : List DispatcherAction) (s : DispatcherRun),
        (DispatcherRun.init n).run self acts = some s → s.insideCount ≤ 1) := by
  intro h
  have h1 := h 2 jobA resubmitTrace runResubmitted (by decide)
  exact absurd h1 (by decide)

theorem quiet_run_cons (self : Job) (s s2 : DispatcherRun) (a : DispatcherAction)
    (rest : List DispatcherAction) (h : s.runQuiet self (a :: rest) = some s2) :
    ∃ s1, (a = DispatcherAction.submit → s.insideCount = 0) ∧
      s.step self a = some s1 ∧ s1.runQuiet self rest = some s2 := by
  unfold DispatcherRun.runQuiet at h
  split at h
  · exact absurd h (by simp)
  · rename_i hg
    cases hs : s.step self a with
    | none => simp [hs] at h
    | some s1 =>
      simp only [hs] at h
      refine ⟨s1, fun ha => ?_, rfl, h⟩
      by_contra hne
      exact hg ⟨ha, hne⟩

theorem quiet_run_invariant (self : Job) (acts : List DispatcherAction) (s s1 : DispatcherRun)
    (hinv : PendingInv self s) (hsum : s.pending self + s.insideCount ≤ 1)
    (h : s.runQuiet self acts = some s1) :
    PendingInv self s1 ∧ s1.pending self + s1.insideCount ≤ 1 := by
  induction acts generalizing s with
  | nil =>
    simp only [DispatcherRun.runQuiet, Option.some.injEq] at h
    subst h
    exact ⟨hinv, hsum⟩
  | cons a rest ih =>
    obtain ⟨s2, hq, h1, h2⟩ := quiet_run_cons self s s1 a rest h
    obtain ⟨hinv2, hsame, hle⟩ := PendingInv_step self s s2 a hinv h1
    refine ih s2 hinv2 ?_ h2
    by_cases ha : a = DispatcherAction.submit
    · have h3 := hsame ha
      have h4 := hq ha
      obtain ⟨-, h5⟩ := hinv2
      have h6 : s2.pending self ≤ 1 := by
        rw [h5]; split <;> omega
      omega
    · have := hle ha
      omega

/-- C9, amended: when `Submit` is not called while an executor is inside
`_implementation.Dispatch()`, then with any number of executors no reachable
state has two executors inside `_implementation.Dispatch()` at the same
time. -/
theorem at_most_one_inside_when_quiet (n : Nat) (self : Job) (acts : List DispatcherAction)
    (s : DispatcherRun) (h : (DispatcherRun.init n).runQuiet self acts = some s) :
    s.insideCount ≤ 1 := by
  have h0 : (DispatcherRun.init n).pending self + (DispatcherRun.init n).insideCount ≤ 1 := by
    simp [DispatcherRun.pending, DispatcherRun.insideCount, DispatcherRun.init,
      List.count_replicate]
  have := (quiet_run_invariant self acts _ s (PendingInv_init self n) h0 h).2
  omega

theorem at_most_one_inside_when_quiet_witness :
    (DispatcherRun.init 2).runQuiet jobA quietTrace = some runQuietState ∧
    runQuietState.insideCount ≤ 1 :=
  ⟨by decide, at_most_one_inside_when_quiet 2 jobA quietTrace runQuietState (by decide)⟩

/-! ## DispatcherType: Dispatch -/

theorem runBody_invoked (self : Job) (body : List ImplOp) (s : DispatchState) :
    (ImplOp.runBody self body s).invoked = s.invoked := by
  induction body generalizing s with
  | nil => rfl
  | cons op rest ih =>
    cases op with
    | submit => simp only [ImplOp.runBody]; rw [ih]
    | work => simp only [ImplOp.runBody]; rw [ih]

theorem Submit_when_submitted (d : DispatcherType) (self : Job) (queue : HandleQueue)
    (h : d.submitted = true) : d.Submit self queue = (d, queue) := by
  cases d with
  | mk submitted =>
    simp only at h
    subst h
    simp [DispatcherType.Submit, compare_exchange_strong]

theorem Submit_when_not_submitted (d : DispatcherType) (self : Job) (queue : HandleQueue)
    (h : d.submitted = false) (hen : queue.enabled = true) :
    d.Submit self queue
      = ({ submitted := true }, { queue with items := queue.items ++ [self] }) := by
  simp [DispatcherType.Submit, compare_exchange_strong, h, HandleQueue.Insert, hen]

theorem runBody_when_submitted (self : Job) (body : List ImplOp) (s : DispatchState)
    (h : s.dispatcher.submitted = true) : ImplOp.runBody self body s = s := by
  induction body generalizing s with
  | nil => rfl
  | cons op rest ih =>
    cases op with
    | submit =>
      simp only [ImplOp.runBody, Submit_when_submitted _ self s.queue h]
      exact ih s h
    | work =>
      simp only [ImplOp.runBody]
      exact ih s h

theorem runBody_when_not_submitted (self : Job) (body : List ImplOp) (s : DispatchState)
    (h : s.dispatcher.submitted = false) (hen : s.queue.enabled = true) :
    (ImplOp.submit ∈ body →
      (ImplOp.runBody self body s).dispatcher.submitted = true ∧
      (ImplOp.runBody self body s).queue.items = s.queue.items ++ [self]) ∧
    (ImplOp.submit ∉ body → ImplOp.runBody self body s = s) := by
  induction body generalizing s with
  | nil => simp [ImplOp.runBody]
  | cons op rest ih =>
    cases op with
    | submit =>
      refine ⟨fun _ => ?_, fun hn => absurd (List.mem_cons_self _ _) hn⟩
      simp only [ImplOp.runBody, Submit_when_not_submitted _ self s.queue h hen]
      rw [runBody_when_submitted self rest _ rfl]
      exact ⟨rfl, rfl⟩
    | work =>
      simp only [ImplOp.runBody]
      obtain ⟨h1, h2⟩ := ih s h hen
      refine ⟨fun hm => h1 ?_, fun hn => h2 ?_⟩
      · simpa using hm
      · simpa using hn

/-- C10: `DispatcherType::Dispatch` enters `_implementation.Dispatch()` exactly
once when `_submitted` was true on entry and not at all when it was false (the
entry is dropped and nothing changes).  When it enters, `_submitted` is
already false, so a `Submit` made there succeeds: it sets `_submitted` back to
true and appends one entry; whatever the number of `Submit` calls made from
inside, exactly one fresh entry is in the queue afterwards, and none when no
`Submit` is made. -/
theorem Dispatch_invokes_once (self : Job) (body : List ImplOp) (s : DispatchState)
    (hen : s.queue.enabled = true) :
    (s.dispatcher.submitted = false → DispatcherType.Dispatch self body s = s) ∧
    (s.dispatcher.submitted = true →
      DispatcherType.Dispatch self body s
        = ImplOp.runBody self body
            { s with dispatcher := { submitted := false }, invoked := s.invoked + 1 } ∧
      (DispatcherType.Dispatch self body s).invoked = s.invoked + 1 ∧
      (({ submitted := false } : DispatcherType).Submit self s.queue).1.submitted = true ∧
      (({ submitted := false } : DispatcherType).Submit self s.queue).2.items
        = s.queue.items ++ [self] ∧
      (ImplOp.submit ∈ body →
        (DispatcherType.Dispatch self body s).dispatcher.submitted = true ∧
        (DispatcherType.Dispatch self body s).queue.items = s.queue.items ++ [self]) ∧
      (ImplOp.submit ∉ body →
        (DispatcherType.Dispatch self body s).dispatcher.submitted = false ∧
        (DispatcherType.Dispatch self body s).queue = s.queue)) := by
  constructor
  · intro hs
    cases s with
    | mk dispatcher queue invoked =>
      cases dispatcher with
      | mk submitted =>
        simp only at hs
        subst hs
        simp [DispatcherType.Dispatch, compare_exchange_strong]
  · intro hs
    have hd : DispatcherType.Dispatch self body s
        = ImplOp.runBody self body
            { s with dispatcher := { submitted := false }, invoked := s.invoked + 1 } := by
      simp [DispatcherType.Dispatch, compare_exchange_strong, hs]
    have hsub := Submit_when_not_submitted { submitted := false } self s.queue rfl hen
    obtain ⟨h1, h2⟩ := runBody_when_not_submitted self body
      { s with dispatcher := { submitted := false }, invoked := s.invoked + 1 } rfl hen
    refine ⟨hd, ?_, ?_, ?_, ?_, ?_⟩
    · rw [hd, runBody_invoked]
    · rw [hsub]
    · rw [hsub]
    · intro hm
      rw [hd]
      exact h1 hm
    · intro hn
      rw [hd, h2 hn]
      exact ⟨rfl, rfl⟩

theorem Dispatch_invokes_once_witness :
    dispatchEntry.queue.enabled = true ∧
    dispatchEntry.dispatcher.submitted = true ∧
    (DispatcherType.Dispatch jobA [ImplOp.work, ImplOp.submit, ImplOp.submit]
      dispatchEntry).invoked = dispatchEntry.invoked + 1 ∧
    (DispatcherType.Dispatch jobA [ImplOp.work, ImplOp.submit, ImplOp.submit]
      dispatchEntry).queue.items = dispatchEntry.queue.items ++ [jobA] :=
  ⟨rfl, rfl,
    ((Dispatch_invokes_once jobA [ImplOp.work, ImplOp.submit, ImplOp.submit] dispatchEntry
      rfl).2 rfl).2.1,
    (((Dispatch_invokes_once jobA [ImplOp.work, ImplOp.submit, ImplOp.submit] dispatchEntry
      rfl).2 rfl).2.2.2.2.1 (by decide)).2⟩

/-! ## Thread identities reported by Id -/

theorem runVisit_pool (w : WorkerPoolType) (index : Nat) :
    (w.runVisit index).pool = w.pool := rfl

theorem runLoop_pool (l : List Nat) (w : WorkerPoolType) :
    (l.foldl WorkerPoolType.runVisit w).pool = w.pool := by
  induction l generalizing w with
  | nil => rfl
  | cons i rest ih => rw [List.foldl_cons, ih, runVisit_pool]

theorem runLoop_threadId (l : List Nat) (w : WorkerPoolType) (k : Nat) :
    ((l.foldl WorkerPoolType.runVisit w).minions k).threadId = (w.minions k).threadId := by
  induction l generalizing w with
  | nil => rfl
  | cons i rest ih =>
    rw [List.foldl_cons, ih]
    unfold WorkerPoolType.runVisit WorkerPoolType.Index
    by_cases hk : k = WorkerPoolType.indexPosition i
    · subst hk
      simp [Minion.Set, Minion.Run]
    · simp [Function.update_noteq hk]

theorem runLoop_untouched (l : List Nat) (w : WorkerPoolType) (k : Nat)
    (hk : ∀ i ∈ l, WorkerPoolType.indexPosition i ≠ k) :
    (l.foldl WorkerPoolType.runVisit w).minions k = w.minions k := by
  induction l generalizing w with
  | nil => rfl
  | cons i rest ih =>
    rw [List.foldl_cons, ih _ (fun j hj => hk j (List.mem_cons_of_mem _ hj))]
    unfold WorkerPoolType.runVisit
    exact Function.update_noteq (Ne.symm (hk i (List.mem_cons_self _ _))) _ _

theorem runLoop_bound (n start : Nat) (w : WorkerPoolType) (index : Nat)
    (hstart : 1 ≤ start) (h1 : start ≤ index) (h2 : index < start + n) :
    (((List.range' start n).foldl WorkerPoolType.runVisit w).minions (index - 1)).index = index ∧
    (((List.range' start n).foldl WorkerPoolType.runVisit w).minions (index - 1)).started
      = true := by
  induction n generalizing start w with
  | zero => omega
  | succ n ih =>
    rw [List.range'_succ, List.foldl_cons]
    by_cases hs : index = start
    · subst hs
      rw [runLoop_untouched]
      · simp [WorkerPoolType.runVisit, WorkerPoolType.indexPosition, Minion.Set, Minion.Run]
      · intro i hi
        rw [List.mem_range'_1] at hi
        unfold WorkerPoolType.indexPosition
        omega
    · exact ih (start + 1) _ (by omega) (by omega) (by omega)

theorem Run_binds (w : WorkerPoolType) (index : Nat) (h1 : 1 ≤ index)
    (h2 : index < w.pool.metadata.Slots) :
    (w.Run.Index index).index = index ∧ (w.Run.Index index).started = true ∧
    (w.Run.Index index).threadId = (w.minions (index - 1)).threadId := by
  unfold WorkerPoolType.Run WorkerPoolType.Index WorkerPoolType.indexPosition
    WorkerPool.runIndexes
  have hb := runLoop_bound (w.pool.metadata.Slots - 1) 1 { w with pool := w.pool.Run } index
    (Nat.le_refl 1) h1 (by omega)
  exact ⟨hb.1, hb.2, runLoop_threadId _ _ _⟩

theorem Id_after_Run (w : WorkerPoolType) (index : Nat) (h1 : 2 ≤ index)
    (h2 : index < w.pool.metadata.Slots) :
    w.Run.Id index = (w.Run.Index (index - 1)).threadId ∧
    (w.Run.Index (index - 1)).index = index - 1 ∧
    (w.Run.Index index).index = index := by
  have hslots : w.Run.pool.metadata.Slots = w.pool.metadata.Slots := by
    unfold WorkerPoolType.Run
    rw [runLoop_pool]
    rfl
  refine ⟨?_, (Run_binds w (index - 1) (by omega) (by omega)).1, (Run_binds w index (by omega) h2).1⟩
  unfold WorkerPoolType.Id
  rw [if_neg (by omega), if_neg (by omega), hslots, if_pos h2]

/-- C11 fails on the code: in a pool of three slots after `Run`, the minion
that `Run` bound to slot 2 (the one whose thread runs `Process(2)`) has thread
identity 102, but `Id(2)` returns 101, the identity of the minion bound to
slot 1; `Id(0)` is the identity of the timer thread and `Id(1)` is 0. -/
theorem Id_reports_previous_slot :
    (poolThreeStarted.Index 2).index = 2 ∧
    (poolThreeStarted.Index 2).started = true ∧
    (poolThreeStarted.Index 2).threadId = 102 ∧
    poolThreeStarted.Id 2 = 101 ∧
    (poolThreeStarted.Index 1).index = 1 ∧
    (poolThreeStarted.Index 1).threadId = 101 ∧
    poolThreeStarted.Id 0 = 100 ∧
    poolThreeStarted.Id 1 = 0 := by
  refine ⟨by decide, by decide, by decide, by decide, by decide, by decide, by decide, by decide⟩

end Core

namespace ProcessContainers

/-! ## The cgroup parsers -/

theorem cpuLoop_skips (token : List Char) (rest : List (List Char)) (cores : List Nat)
    (h : (token.head?.map isdigit).getD false = false) :
    cpuLoop (token :: rest) cores = cpuLoop rest cores := by
  simp [cpuLoop, h]

theorem memoryLoop_throws (label token : List Char) (rest : List (List Char))
    (result : MemoryInfo) (h : scanInteger token = none) :
    memoryLoop (label :: token :: rest) result = Except.error Exception.invalid_argument := by
  simp [memoryLoop, stoll, h]

/-- C12 fails on the code: on a `memory.stat` content in which a stray
character stands as a token of its own, `RunCContainer::Memory` pairs it with
the label `rss` as its value, `std::stoll` throws `invalid_argument` and the
function is left without a result; `RunCContainer::Cpu` passes over the same
stray token and returns the two values around it, and without the stray token
`Memory` returns the values that follow `rss` and `mapped_file`. -/
theorem Memory_throws_on_stray_token :
    strtok_r statWithStrayToken =
      ["cache".toList, "1024".toList, [Char.ofNat 1], "rss".toList, "4096".toList,
        "mapped_file".toList, "512".toList] ∧
    RunCContainer.Memory usageContent statWithStrayToken
      = Except.error Exception.invalid_argument ∧
    (RunCContainer.Cpu usageContent percpuWithStrayToken).cores = [100, 200] ∧
    RunCContainer.Memory usageContent statClean
      = Except.ok { allocated := 8192, resident := 4096, shared := 512 } := by
  refine ⟨by decide, by rfl, by decide, by rfl⟩

end ProcessContainers
end WPEFramework
